import Mathlib

/-!
# Verification of `caikit.core.model_manager.ModelManager`

Shallow embedding of `src/caikit/core/model_manager.py`.  The external
collaborators (filesystem, backend configuration, module-config parsing,
backend registry) are parameters of an `Env` structure; the functions below
mirror the control flow of `load`, `_load_from_dir`, `_load_from_zipfile`,
`extract` and `_get_supported_load_backends` line by line.

Machine-level conventions of the embedding:
* A Python `FileNotFoundError` is one of the constructors
  `LoadError.pathDoesNotExist` (the `errno.ENOENT` raise in `_load_from_dir`)
  or `LoadError.moduleConfigNotFound` (raised by `ModuleConfig.load` when no
  `config.yml` exists); the `except FileNotFoundError` handlers catch exactly
  those two.
* The singleton cache (`self.singleton_module_cache`, a Python dict) is an
  association list searched front-to-back; a dict store is a prepend, which
  has the same lookup semantics.
* Observable actions (lock acquisition, `ModuleConfig.load`, loader
  invocations) are recorded in an event trace so that theorems can speak
  about which loaders ran and in which order.
-/

namespace CaikitModelManager

/-- `backend_types.LOCAL`, the default for the `model_backend` key. -/
def LOCAL : String := "LOCAL"

/-- A loaded model object (subclass of `ModuleBase`).  `id` is the Python
object identity; `loadBackend` is the state mutated by `set_load_backend`. -/
structure Model where
  id : Nat
  loadBackend : Option String
deriving Repr, DecidableEq

/-- `model.set_load_backend(load_backend)`: records which backend loaded the
instance. -/
def setLoadBackend (m : Model) (backendType : String) : Model :=
  { m with loadBackend := some backendType }

/-- Raw value returned by a shared loader before the
`error.type_check("<COR76726077E>", ModuleBase, model=model)` check: either a
genuine `ModuleBase` instance or a value of the wrong type. -/
inductive RawResult where
  | module (id : Nat)
  | nonModule
deriving Repr, DecidableEq

/-- One configured load backend: either a `SharedLoadBackendBase` (carries its
own `load` entry point) or a per-module backend (dispatch goes through the
module backend registry). -/
inductive LoadBackend where
  | shared (backendType : String) (loader : String → Option RawResult)
  | perModule (backendType : String)

/-- `backend_type` accessor of a configured backend. -/
def LoadBackend.backendType : LoadBackend → String
  | .shared bt _ => bt
  | .perModule bt => bt

/-- Whether a configured backend is a `SharedLoadBackendBase`. -/
def LoadBackend.isShared : LoadBackend → Bool
  | .shared _ _ => true
  | .perModule _ => false

/-- An entry of `module_backend_registry()[module_id]`: the concrete
implementation class (`impl_class`).  `supportedLoadBackends` models the
`SUPPORTED_LOAD_BACKENDS` class attribute (`none` = attribute absent);
`load` is the class's `load(module_path, ..., load_backend=...)` method,
returning `none` when the implementation declines. -/
structure BackendImplObj where
  supportedLoadBackends : Option (List String)
  load : String → String → Option Model

/-- `ModelManager._get_supported_load_backends(backend_impl)`:
`getattr(backend_impl, SUPPORTED_LOAD_BACKENDS_VAR_NAME, [])`. -/
def getSupportedLoadBackends (backend_impl : BackendImplObj) : List String :=
  backend_impl.supportedLoadBackends.getD []

/-- The parsed `config.yml` (`ModuleConfig`): its `module_id` and the optional
`model_backend` key. -/
structure ModuleConfig where
  module_id : String
  model_backend : Option String

/-- External collaborators of the manager, fixed for the duration of a load.

`configuredLoadBackends` is the list obtained from
`module_backend_config.configured_load_backends()` after the one-off
`configure()` bootstrap for an empty list (the bootstrap only refreshes the
list, so the embedding takes the post-bootstrap list directly).
`moduleConfig p` is `ModuleConfig.load(p)` (`none` = `FileNotFoundError`).
`moduleBackendRegistry mid bt` is
`module_backend_registry().get(mid, {}).get(bt)`.
`listDir p` returns `(name, os.path.isdir(join(p, name)))` pairs.
`loadPathCfg` is `get_config().load_path`. -/
structure Env where
  pathExists : String → Bool
  isZipfile : String → Bool
  configuredLoadBackends : List LoadBackend
  moduleConfig : String → Option ModuleConfig
  moduleBackendRegistry : String → String → Option BackendImplObj
  listDir : String → List (String × Bool)
  loadPathCfg : Option String

/-- Exceptions that can escape the manager's methods. -/
inductive LoadError where
  /-- `FileNotFoundError(errno.ENOENT, ..., module_path)` from
  `_load_from_dir` when the path does not exist. -/
  | pathDoesNotExist (path : String)
  /-- `FileNotFoundError` raised by `ModuleConfig.load` (no `config.yml`). -/
  | moduleConfigNotFound (path : String)
  /-- `<COR76726077E>`: shared loader returned a non-`ModuleBase` value. -/
  | typeCheckError
  /-- `<COR50207494E>`: `ValueError` after exhausting all backends. -/
  | unableToLoad (path : String) (module_id : Option String)
  /-- `<COR06761097E>`: "Unable to locate archive config due to nested dirs". -/
  | nestedDirs
  /-- `<COR84410081E>`: "Unable to locate archive config within top two
  levels". -/
  | archiveConfigNotFound
  /-- `<COR80419785E>`: "Module load path ... does not contain a `config.yml`
  file", raised by `load` when `_load_from_dir` raised `FileNotFoundError`. -/
  | configYmlNotFound (path : String)
deriving Repr, DecidableEq

/-- Which `LoadError`s are instances of Python's `FileNotFoundError` as
raisable by `_load_from_dir` (the class caught by the two
`except FileNotFoundError:` handlers). -/
def LoadError.isFileNotFound : LoadError → Bool
  | .pathDoesNotExist _ => true
  | .moduleConfigNotFound _ => true
  | _ => false

/-- Observable actions of one load, in execution order. -/
inductive Event where
  /-- Acquisition of `self._singleton_lock` via `singleton_lock`. -/
  | lockAcquire
  /-- Execution of `ModuleConfig.load(module_path)`. -/
  | parseConfig (path : String)
  /-- A loader invocation: the backend's position in the configured list, its
  `backend_type`, whether it was a shared backend, and whether it returned a
  non-`None` value. -/
  | invoked (idx : Nat) (backendType : String) (isShared : Bool)
      (nonNull : Bool)
deriving Repr, DecidableEq

/-- The singleton cache. -/
def Cache := List (String × Model)

/-- `self.singleton_module_cache.get(module_path)`. -/
def cacheGet (c : Cache) (k : String) : Option Model :=
  match c with
  | [] => none
  | (k', m) :: rest => if k' = k then some m else cacheGet rest k

/-- Result of the backend loop inside `_load_from_dir`: the outcome
(`.ok none` = fell off the loop with `loaded_model is None`), the value of the
`module_id` local after the loop, and the trace. -/
structure LoopOut where
  result : Except LoadError (Option Model)
  module_id : Option String
  events : List Event

/-- The `for i, load_backend in enumerate(configured_load_backends)` loop of
`_load_from_dir`.  `parsed` carries the lazily-parsed
`(module_id, model_creation_backend)` pair (`none` until the first per-module
backend forces `ModuleConfig.load`). -/
def dispatchLoop (env : Env) (module_path : String) :
    Nat → Option (String × String) → List LoadBackend → LoopOut
  | _, parsed, [] => ⟨.ok none, parsed.map Prod.fst, []⟩
  | idx, parsed, .shared bt loader :: rest =>
    match loader module_path with
    | some raw =>
      match raw with
      | .module mid =>
        -- type check passes; `loaded_model = model; model.set_load_backend(...)`
        ⟨.ok (some (setLoadBackend ⟨mid, none⟩ bt)), parsed.map Prod.fst,
          [.invoked idx bt true true]⟩
      | .nonModule =>
        ⟨.error .typeCheckError, parsed.map Prod.fst,
          [.invoked idx bt true true]⟩
    | none =>
      let out := dispatchLoop env module_path (idx + 1) parsed rest
      ⟨out.result, out.module_id, .invoked idx bt true false :: out.events⟩
  | idx, parsed, .perModule bt :: rest =>
    -- `if module_id is None:` — first per-module backend parses the config
    match (match parsed with
           | some p => Except.ok (p, ([] : List Event))
           | none =>
             match env.moduleConfig module_path with
             | none =>
               Except.error (LoadError.moduleConfigNotFound module_path)
             | some cfg =>
               Except.ok ((cfg.module_id, cfg.model_backend.getD LOCAL),
                 [Event.parseConfig module_path])) with
    | .error e => ⟨.error e, none, [.parseConfig module_path]⟩
    | .ok ((module_id, model_creation_backend), parseEvents) =>
      match env.moduleBackendRegistry module_id bt with
      | none =>
        -- module does not support loading with this backend: soft skip
        let out := dispatchLoop env module_path (idx + 1)
          (some (module_id, model_creation_backend)) rest
        ⟨out.result, out.module_id, parseEvents ++ out.events⟩
      | some implObj =>
        if model_creation_backend ∈ getSupportedLoadBackends implObj then
          match implObj.load module_path bt with
          | some m =>
            ⟨.ok (some (setLoadBackend m bt)), some module_id,
              parseEvents ++ [.invoked idx bt false true]⟩
          | none =>
            let out := dispatchLoop env module_path (idx + 1)
              (some (module_id, model_creation_backend)) rest
            ⟨out.result, out.module_id,
              parseEvents ++ .invoked idx bt false false :: out.events⟩
        else
          -- creation backend not supported: soft skip
          let out := dispatchLoop env module_path (idx + 1)
            (some (module_id, model_creation_backend)) rest
          ⟨out.result, out.module_id, parseEvents ++ out.events⟩

/-- Result of `_load_from_dir` / `load`: outcome, the cache afterwards, and
the trace. -/
structure LoadOut where
  result : Except LoadError Model
  cache : Cache
  events : List Event

/-- `ModelManager._load_from_dir(module_path, load_singleton)`. -/
def loadFromDir (env : Env) (cache : Cache) (module_path : String)
    (load_singleton : Bool) : LoadOut :=
  if env.pathExists module_path = false then
    ⟨.error (.pathDoesNotExist module_path), cache, []⟩
  else
    let lockEvents : List Event :=
      if load_singleton then [.lockAcquire] else []
    match (if load_singleton then cacheGet cache module_path else none) with
    | some singleton_entry => ⟨.ok singleton_entry, cache, lockEvents⟩
    | none =>
      let out := dispatchLoop env module_path 0 none env.configuredLoadBackends
      match out.result with
      | .error e => ⟨.error e, cache, lockEvents ++ out.events⟩
      | .ok none =>
        ⟨.error (.unableToLoad module_path out.module_id), cache,
          lockEvents ++ out.events⟩
      | .ok (some loaded_model) =>
        let cache' :=
          if load_singleton then (module_path, loaded_model) :: cache
          else cache
        ⟨.ok loaded_model, cache', lockEvents ++ out.events⟩

/-- `ModelManager._load_from_zipfile`, after `extractall` into the fresh
temporary directory `extractPath` (so `env.listDir extractPath` is the
extraction root's listing).  Also returns the directories handed to
`_load_from_dir`, in order. -/
structure ZipOut where
  result : Except LoadError Model
  cache : Cache
  events : List Event
  probed : List String

/-- Python's `str.startswith("/")`, computed on the character list so that
the kernel can evaluate it. -/
def startsWithSlash (s : String) : Bool :=
  match s.data with
  | '/' :: _ => true
  | _ => false

/-- Python's `str.endswith("/")`. -/
def endsWithSlash (s : String) : Bool :=
  match s.data.getLast? with
  | some '/' => true
  | _ => false

/-- Python's `str.startswith("__")`. -/
def startsWithDunder (s : String) : Bool :=
  match s.data with
  | '_' :: '_' :: _ => true
  | _ => false

/-- `posixpath.join(a, b)` for two components. -/
def joinPath (a b : String) : String :=
  if startsWithSlash b then b
  else if a = "" ∨ endsWithSlash a then a ++ b
  else a ++ "/" ++ b

/-- `ModelManager._load_from_zipfile(module_path, load_singleton)`. -/
def loadFromZipfile (env : Env) (cache : Cache) (extractPath : String)
    (load_singleton : Bool) : ZipOut :=
  let out := loadFromDir env cache extractPath load_singleton
  match out.result with
  | .ok m => ⟨.ok m, out.cache, out.events, [extractPath]⟩
  | .error e =>
    if e.isFileNotFound then
      -- the `except FileNotFoundError:` handler
      let nested_dirs :=
        ((env.listDir extractPath).filter
          (fun fd => fd.2 && ! startsWithDunder fd.1)).map
          (fun fd => joinPath extractPath fd.1)
      -- `if len(nested_dirs) != 1: error(...)`, else retry on `nested_dirs[0]`
      match nested_dirs with
      | [d] =>
        let out2 := loadFromDir env out.cache d load_singleton
        match out2.result with
        | .ok m =>
          ⟨.ok m, out2.cache, out.events ++ out2.events, [extractPath, d]⟩
        | .error e2 =>
          if e2.isFileNotFound then
            ⟨.error .archiveConfigNotFound, out2.cache,
              out.events ++ out2.events, [extractPath, d]⟩
          else
            ⟨.error e2, out2.cache, out.events ++ out2.events,
              [extractPath, d]⟩
      | _ => ⟨.error .nestedDirs, out.cache, out.events, [extractPath]⟩
    else
      ⟨.error e, out.cache, out.events, [extractPath]⟩

/-- Python's `str.split("/")`, on the character list. -/
def splitSlash : List Char → List (List Char)
  | [] => [[]]
  | c :: rest =>
    if c = '/' then [] :: splitSlash rest
    else
      match splitSlash rest with
      | [] => [[c]]
      | comp :: comps => (c :: comp) :: comps

/-- Python's `"/".join(comps)`, on character lists. -/
def joinSlash : List (List Char) → List Char
  | [] => []
  | [comp] => comp
  | comp :: comps => comp ++ '/' :: joinSlash comps

/-- `posixpath.normpath`, as applied by `load` at
`module_path = os.path.normpath(module_path)`. -/
def normPath (p : String) : String :=
  if p = "" then "."
  else
    -- `initial_slashes`: 2 for exactly-two leading slashes, else 1 or 0
    let initialSlashes : Nat :=
      match p.data with
      | '/' :: '/' :: '/' :: _ => 1
      | '/' :: '/' :: _ => 2
      | '/' :: _ => 1
      | _ => 0
    let comps := splitSlash p.data
    let newComps := comps.foldl
      (fun acc comp =>
        if comp = [] ∨ comp = ['.'] then acc
        else if comp ≠ ['.', '.'] ∨ (initialSlashes = 0 ∧ acc = []) ∨
            acc.getLast? = some ['.', '.'] then
          acc ++ [comp]
        else if acc ≠ [] then acc.dropLast
        else acc)
      []
    let joined := List.replicate initialSlashes '/' ++ joinSlash newComps
    if joined = [] then "." else String.mk joined

/-- The path-resolution prefix of `load` for a string `module_path`: the
`load_path` fallback join followed by `os.path.normpath`. -/
def resolveModulePath (env : Env) (module_path : String) : String :=
  let module_path :=
    match env.loadPathCfg with
    | some load_path =>
      if env.pathExists module_path then module_path
      else joinPath load_path module_path
    | none => module_path
  normPath module_path

/-- `ModelManager.load(module_path, load_singleton=...)` for a string target.
`extractPath` is the temporary directory a zip target would extract into. -/
def load (env : Env) (cache : Cache) (module_path : String)
    (extractPath : String) (load_singleton : Bool) : LoadOut :=
  let module_path := resolveModulePath env module_path
  if env.isZipfile module_path then
    let out := loadFromZipfile env cache extractPath load_singleton
    ⟨out.result, out.cache, out.events⟩
  else
    let out := loadFromDir env cache module_path load_singleton
    match out.result with
    | .error e =>
      if e.isFileNotFound then
        -- `except FileNotFoundError:` → `<COR80419785E>`
        ⟨.error (.configYmlNotFound module_path), out.cache, out.events⟩
      else out
    | .ok _ => out

/-- `posixpath.abspath`, as applied by `extract` to `model_path`. -/
def absPath (cwd p : String) : String :=
  if p.startsWith "/" then normPath p else normPath (joinPath cwd p)

/-- Result of `ModelManager.extract`: the returned path, the set of existing
filesystem paths afterwards, and whether the archive was opened/extracted. -/
structure ExtractOut where
  ret : String
  fs : List String
  extracted : Bool
deriving Repr, DecidableEq

/-- `ModelManager.extract(zip_path, model_path, force_overwrite)`.  `fs` is
the set of existing paths; `extractall` creates `model_path`. -/
def extract (cwd : String) (fs : List String) (model_path : String)
    (force_overwrite : Bool) : ExtractOut :=
  let model_path := absPath cwd model_path
  if ¬ force_overwrite ∧ fs.contains model_path then
    -- skip if force_overwrite disabled and path already exists
    ⟨model_path, fs, false⟩
  else
    ⟨model_path, model_path :: fs, true⟩

/-- Position (in the configured backend list) of a loader-invocation event. -/
def Event.invokedIdx : Event → Option Nat
  | .invoked i _ _ _ => some i
  | _ => none

/-- Whether an event is a `ModuleConfig.load` execution. -/
def Event.isParse : Event → Bool
  | .parseConfig _ => true
  | _ => false

/-- Whether an event is a loader invocation that returned a non-`None`
value (the `break` / fatal-type-check cases of the loop). -/
def Event.isNonNullInvoke : Event → Bool
  | .invoked _ _ _ nn => nn
  | _ => false

/-- Whether an event is a loader invocation (shared or per-module). -/
def Event.isInvoke : Event → Bool
  | .invoked _ _ _ _ => true
  | _ => false

/-!
## Concurrency model of the singleton path

`_load_from_dir` wraps its whole body in `singleton_lock(load_singleton)`,
which acquires `self._singleton_lock` only when `load_singleton` is true.
The transition system below models several threads calling
`_load_from_dir` on the *same* existing `module_path` concurrently, each
either in singleton mode (acquire the lock, check the cache, on a miss run
the backend dispatch and store the result) or non-singleton mode (run the
dispatch with no locking and no cache interaction).  A loaded instance is
identified by a `Nat` (Python object identity); each dispatch execution
produces a fresh one (`counter`), and `invocations` counts dispatch
executions. -/

/-- Program counter of one thread executing `_load_from_dir`. -/
inductive TPc where
  /-- Before entering `singleton_lock`. -/
  | start
  /-- Holding the lock, about to check the singleton cache. -/
  | locked
  /-- Cache miss observed; about to run the backend dispatch. -/
  | loading
  /-- Returned with instance `r`. -/
  | done (r : Nat)
deriving Repr, DecidableEq

/-- Whether a thread is inside the `with self._singleton_lock` block. -/
def TPc.busy : TPc → Bool
  | .locked => true
  | .loading => true
  | _ => false

/-- One thread: its `load_singleton` argument and its program counter. -/
structure Thread where
  singleton : Bool
  pc : TPc
deriving Repr, DecidableEq

/-- Process state: the owner of `self._singleton_lock`, the singleton cache
entry for the shared key, the fresh-instance counter, the number of dispatch
executions, and the threads. -/
structure CState (n : Nat) where
  lockHeld : Option (Fin n)
  cache : Option Nat
  counter : Nat
  invocations : Nat
  threads : Fin n → Thread

/-- Update one thread's state. -/
def updThreads {n : Nat} (ts : Fin n → Thread) (i : Fin n) (t : Thread) :
    Fin n → Thread :=
  fun j => if j = i then t else ts j

/-- Interleaving semantics of concurrent `_load_from_dir` calls on one key. -/
inductive Step {n : Nat} : CState n → CState n → Prop where
  /-- A singleton thread acquires `self._singleton_lock`. -/
  | acquire (s : CState n) (i : Fin n)
      (hi : s.threads i = ⟨true, .start⟩) (hl : s.lockHeld = none) :
      Step s { s with
        lockHeld := some i,
        threads := updThreads s.threads i ⟨true, .locked⟩ }
  /-- `singleton_module_cache.get` hit: return the entry, release the lock. -/
  | cacheHit (s : CState n) (i : Fin n) (m : Nat)
      (hi : s.threads i = ⟨true, .locked⟩) (hc : s.cache = some m) :
      Step s { s with
        lockHeld := none,
        threads := updThreads s.threads i ⟨true, .done m⟩ }
  /-- `singleton_module_cache.get` miss: proceed to the backend dispatch. -/
  | cacheMiss (s : CState n) (i : Fin n)
      (hi : s.threads i = ⟨true, .locked⟩) (hc : s.cache = none) :
      Step s { s with
        threads := updThreads s.threads i ⟨true, .loading⟩ }
  /-- The dispatch loads a fresh instance, the cache is populated, the lock
  released. -/
  | loadStore (s : CState n) (i : Fin n)
      (hi : s.threads i = ⟨true, .loading⟩) :
      Step s { lockHeld := none, cache := some s.counter,
               counter := s.counter + 1, invocations := s.invocations + 1,
               threads := updThreads s.threads i ⟨true, .done s.counter⟩ }
  /-- A non-singleton thread runs the dispatch directly: no lock, no cache. -/
  | nonSingletonLoad (s : CState n) (i : Fin n)
      (hi : s.threads i = ⟨false, .start⟩) :
      Step s { s with
        counter := s.counter + 1,
        invocations := s.invocations + 1,
        threads := updThreads s.threads i ⟨false, .done s.counter⟩ }

/-- Reflexive-transitive closure of `Step`. -/
inductive Reach {n : Nat} : CState n → CState n → Prop where
  | refl (s : CState n) : Reach s s
  | tail {s t u : CState n} : Reach s t → Step t u → Reach s u

/-- Initial state: lock free, empty cache, every thread before the lock;
`f i` is thread `i`'s `load_singleton` argument. -/
def initState (n : Nat) (f : Fin n → Bool) : CState n :=
  ⟨none, none, 0, 0, fun i => ⟨f i, .start⟩⟩

/-!
## Concrete fixtures

Small concrete environments used by counterexamples and witnesses.
-/

/-- An environment in which no filesystem path exists. -/
def envNoPath : Env :=
  { pathExists := fun _ => false
    isZipfile := fun _ => false
    configuredLoadBackends := []
    moduleConfig := fun _ => none
    moduleBackendRegistry := fun _ _ => none
    listDir := fun _ => []
    loadPathCfg := none }

/-- An environment with an existing directory that has no `config.yml`, and
one per-module backend configured. -/
def envNoManifest : Env :=
  { pathExists := fun _ => true
    isZipfile := fun _ => false
    configuredLoadBackends := [.perModule "B"]
    moduleConfig := fun _ => none
    moduleBackendRegistry := fun _ _ => none
    listDir := fun _ => []
    loadPathCfg := none }

/-- A fixed model instance used in cache fixtures. -/
def modelA : Model := ⟨1, none⟩

/-- An environment with one shared backend `"S"` whose loader always returns
a fresh module instance with identity `7`. -/
def envShared : Env :=
  { pathExists := fun _ => true
    isZipfile := fun _ => false
    configuredLoadBackends := [.shared "S" (fun _ => some (.module 7))]
    moduleConfig := fun _ => none
    moduleBackendRegistry := fun _ _ => none
    listDir := fun _ => []
    loadPathCfg := none }

/-- An environment with two shared backends: `"A"` always declines, `"B"`
loads an instance with identity `5`. -/
def envTwoShared : Env :=
  { pathExists := fun _ => true
    isZipfile := fun _ => false
    configuredLoadBackends :=
      [.shared "A" (fun _ => none), .shared "B" (fun _ => some (.module 5))]
    moduleConfig := fun _ => none
    moduleBackendRegistry := fun _ _ => none
    listDir := fun _ => []
    loadPathCfg := none }

/-- A local (`LOCAL`-kind) per-module implementation that declares no
`SUPPORTED_LOAD_BACKENDS` attribute and whose loader would succeed. -/
def implLocalNoList : BackendImplObj := ⟨none, fun _ _ => some ⟨3, none⟩⟩

/-- A local per-module implementation declaring
`SUPPORTED_LOAD_BACKENDS = [LOCAL]`. -/
def implLocalWithList : BackendImplObj :=
  ⟨some [LOCAL], fun _ _ => some ⟨4, none⟩⟩

/-- An environment with one per-module `LOCAL` backend; module `"mid"` has a
registered `LOCAL` implementation with no declared list, and its manifest
records no `model_backend` (so the creation backend defaults to `LOCAL`). -/
def envLocalNoList : Env :=
  { pathExists := fun _ => true
    isZipfile := fun _ => false
    configuredLoadBackends := [.perModule LOCAL]
    moduleConfig := fun _ => some ⟨"mid", none⟩
    moduleBackendRegistry := fun mid bt =>
      if mid = "mid" ∧ bt = LOCAL then some implLocalNoList else none
    listDir := fun _ => []
    loadPathCfg := none }

/-- Same as `envLocalNoList` but the implementation declares `[LOCAL]`. -/
def envLocalWithList : Env :=
  { pathExists := fun _ => true
    isZipfile := fun _ => false
    configuredLoadBackends := [.perModule LOCAL]
    moduleConfig := fun _ => some ⟨"mid", none⟩
    moduleBackendRegistry := fun mid bt =>
      if mid = "mid" ∧ bt = LOCAL then some implLocalWithList else none
    listDir := fun _ => []
    loadPathCfg := none }

/-- A zip-extraction environment: the extraction root holds a `__MACOSX`
compression artifact, one real nested directory `mdl`, and a plain file; no
`config.yml` anywhere; one per-module backend configured. -/
def envZipNested : Env :=
  { pathExists := fun _ => true
    isZipfile := fun _ => false
    configuredLoadBackends := [.perModule "B"]
    moduleConfig := fun _ => none
    moduleBackendRegistry := fun _ _ => none
    listDir := fun _ =>
      [("__MACOSX", true), ("mdl", true), ("notes.txt", false)]
    loadPathCfg := none }

/-- A zip-extraction environment whose root holds two real directories. -/
def envZipTwoDirs : Env :=
  { pathExists := fun _ => true
    isZipfile := fun _ => false
    configuredLoadBackends := [.perModule "B"]
    moduleConfig := fun _ => none
    moduleBackendRegistry := fun _ _ => none
    listDir := fun _ => [("a", true), ("b", true)]
    loadPathCfg := none }

/-- An environment where every path is a zip archive and one shared backend
`"S"` loads an instance with identity `9` from the extraction directory. -/
def envZipShared : Env :=
  { pathExists := fun _ => true
    isZipfile := fun _ => true
    configuredLoadBackends := [.shared "S" (fun _ => some (.module 9))]
    moduleConfig := fun _ => none
    moduleBackendRegistry := fun _ _ => none
    listDir := fun _ => []
    loadPathCfg := none }

/-!
## Helper lemmas
-/

/-- `_load_from_dir` either leaves the singleton cache unchanged, or it
succeeded in singleton mode on a cache miss and stored the loaded model
under the module path. -/
theorem loadFromDir_cache_cases (env : Env) (cache : Cache) (p : String)
    (ls : Bool) :
    (loadFromDir env cache p ls).cache = cache ∨
    ∃ m, (loadFromDir env cache p ls).result = .ok m ∧ ls = true ∧
      cacheGet cache p = none ∧
      (loadFromDir env cache p ls).cache = (p, m) :: cache := by
  by_cases hpe : env.pathExists p = false
  · left; simp [loadFromDir, hpe]
  · rcases hres : (dispatchLoop env p 0 none env.configuredLoadBackends).result
      with e | (_ | m)
    · left; simp only [loadFromDir, hpe, hres]
      cases (if ls = true then cacheGet cache p else none) <;> rfl
    · left; simp only [loadFromDir, hpe, hres]
      cases (if ls = true then cacheGet cache p else none) <;> rfl
    · by_cases hls : ls = true
      · cases hget : cacheGet cache p with
        | some m' => left; simp [loadFromDir, hpe, hls, hget]
        | none =>
          right
          refine ⟨m, ?_, hls, rfl, ?_⟩ <;>
            simp [loadFromDir, hpe, hls, hget, hres]
      · left; simp [loadFromDir, hpe, hls, hres]

/-- A failing `_load_from_dir` never modifies the singleton cache. -/
theorem loadFromDir_error_cache (env : Env) (cache : Cache) (p : String)
    (ls : Bool) (e : LoadError)
    (h : (loadFromDir env cache p ls).result = .error e) :
    (loadFromDir env cache p ls).cache = cache := by
  rcases loadFromDir_cache_cases env cache p ls with hc | ⟨m, hm, _⟩
  · exact hc
  · rw [hm] at h; cases h

/-- `_load_from_zipfile` either leaves the singleton cache unchanged or
returned a loaded model. -/
theorem loadFromZipfile_cache_or_ok (env : Env) (cache : Cache) (ep : String)
    (ls : Bool) :
    (loadFromZipfile env cache ep ls).cache = cache ∨
    ∃ m, (loadFromZipfile env cache ep ls).result = .ok m := by
  rcases h1 : (loadFromDir env cache ep ls).result with e1 | m1
  · have hc1 := loadFromDir_error_cache env cache ep ls e1 h1
    by_cases hf : e1.isFileNotFound = true
    · rcases hnd : ((env.listDir ep).filter
          (fun fd => fd.2 && ! startsWithDunder fd.1)).map
          (fun fd => joinPath ep fd.1) with _ | ⟨d, _ | ⟨d2, rest⟩⟩
      · left; simp [loadFromZipfile, h1, hf, hnd, hc1]
      · rcases h2 : (loadFromDir env (loadFromDir env cache ep ls).cache d
            ls).result with e2 | m2
        · have hc2 := loadFromDir_error_cache env
            (loadFromDir env cache ep ls).cache d ls e2 h2
          rw [hc1] at h2 hc2
          by_cases hf2 : e2.isFileNotFound = true
          · left; simp [loadFromZipfile, h1, hf, hnd, h2, hf2, hc2, hc1]
          · left; simp [loadFromZipfile, h1, hf, hnd, h2, hf2, hc2, hc1]
        · rw [hc1] at h2
          right; exact ⟨m2, by simp [loadFromZipfile, h1, hf, hnd, h2, hc1]⟩
      · left; simp [loadFromZipfile, h1, hf, hnd, hc1]
    · left; simp [loadFromZipfile, h1, hf, hc1]
  · right; exact ⟨m1, by simp [loadFromZipfile, h1]⟩

/-- A failing `_load_from_zipfile` never modifies the singleton cache. -/
theorem loadFromZipfile_error_cache (env : Env) (cache : Cache) (ep : String)
    (ls : Bool) (e : LoadError)
    (h : (loadFromZipfile env cache ep ls).result = .error e) :
    (loadFromZipfile env cache ep ls).cache = cache := by
  rcases loadFromZipfile_cache_or_ok env cache ep ls with hc | ⟨m, hm⟩
  · exact hc
  · rw [hm] at h; cases h

/-- `_load_from_zipfile` either leaves the singleton cache unchanged, or it
succeeded in singleton mode and the loaded instance is stored under one of
the directories handed to `_load_from_dir` — the temporary extraction root
or its single nested directory — never under the caller-supplied archive
path. -/
theorem loadFromZipfile_cache_cases (env : Env) (cache : Cache) (ep : String)
    (ls : Bool) :
    (loadFromZipfile env cache ep ls).cache = cache ∨
    ∃ m k, (loadFromZipfile env cache ep ls).result = .ok m ∧ ls = true ∧
      k ∈ (loadFromZipfile env cache ep ls).probed ∧
      (loadFromZipfile env cache ep ls).cache = (k, m) :: cache := by
  rcases h1 : (loadFromDir env cache ep ls).result with e1 | m1
  · have hc1 := loadFromDir_error_cache env cache ep ls e1 h1
    by_cases hf : e1.isFileNotFound = true
    · rcases hnd : ((env.listDir ep).filter
          (fun fd => fd.2 && ! startsWithDunder fd.1)).map
          (fun fd => joinPath ep fd.1) with _ | ⟨d, _ | ⟨d2, rest⟩⟩
      · left; simp [loadFromZipfile, h1, hf, hnd, hc1]
      · rcases h2 : (loadFromDir env cache d ls).result with e2 | m2
        · have hc2 := loadFromDir_error_cache env cache d ls e2 h2
          by_cases hf2 : e2.isFileNotFound = true
          · left; simp [loadFromZipfile, h1, hf, hnd, hc1, h2, hf2, hc2]
          · left; simp [loadFromZipfile, h1, hf, hnd, hc1, h2, hf2, hc2]
        · rcases loadFromDir_cache_cases env cache d ls
              with hc2 | ⟨m', hm', hls, -, hstore⟩
          · left; simp [loadFromZipfile, h1, hf, hnd, hc1, h2, hc2]
          · rw [h2] at hm'
            obtain rfl := Except.ok.inj hm'
            right
            refine ⟨m2, d, ?_, hls, ?_, ?_⟩ <;>
              simp [loadFromZipfile, h1, hf, hnd, hc1, h2, hstore]
      · left; simp [loadFromZipfile, h1, hf, hnd, hc1]
    · left; simp [loadFromZipfile, h1, hf, hc1]
  · rcases loadFromDir_cache_cases env cache ep ls
        with hc1 | ⟨m', hm', hls, -, hstore⟩
    · left; simp [loadFromZipfile, h1, hc1]
    · rw [h1] at hm'
      obtain rfl := Except.ok.inj hm'
      right
      refine ⟨m1, ep, ?_, hls, ?_, ?_⟩ <;>
        simp [loadFromZipfile, h1, hstore]

/-- `load` (string target) never modifies the singleton cache when it
fails. -/
theorem load_error_cache (env : Env) (cache : Cache) (p ep : String)
    (ls : Bool) (e : LoadError)
    (h : (load env cache p ep ls).result = .error e) :
    (load env cache p ep ls).cache = cache := by
  by_cases hz : env.isZipfile (resolveModulePath env p) = true
  · have hres : (load env cache p ep ls).result =
        (loadFromZipfile env cache ep ls).result := by simp [load, hz]
    rw [hres] at h
    have hc := loadFromZipfile_error_cache env cache ep ls e h
    simpa [load, hz] using hc
  · rcases hres : (loadFromDir env cache (resolveModulePath env p) ls).result
        with e1 | m1
    · have hc := loadFromDir_error_cache env cache (resolveModulePath env p)
        ls e1 hres
      by_cases hf : e1.isFileNotFound = true <;>
        simp [load, hz, hres, hf, hc]
    · simp [load, hz, hres] at h

/-- Every loader invocation recorded by the backend loop carries an index at
or beyond the starting index, and that index points at the matching backend
of the list (same `backend_type`, same shared/per-module shape). -/
theorem dispatchLoop_invoked_spec (env : Env) (p : String) :
    ∀ (bs : List LoadBackend) (idx : Nat) (parsed : Option (String × String))
      (i : Nat) (bt : String) (sh nn : Bool),
      Event.invoked i bt sh nn ∈ (dispatchLoop env p idx parsed bs).events →
      idx ≤ i ∧ ∃ b, bs[i - idx]? = some b ∧ b.backendType = bt ∧
        b.isShared = sh := by
  intro bs
  induction bs with
  | nil =>
    intro idx parsed i bt sh nn h
    simp [dispatchLoop] at h
  | cons b rest ih =>
    intro idx parsed i bt sh nn h
    have step : ∀ parsed', Event.invoked i bt sh nn ∈
        (dispatchLoop env p (idx + 1) parsed' rest).events →
        idx ≤ i ∧ ∃ b', (b :: rest)[i - idx]? = some b' ∧
          b'.backendType = bt ∧ b'.isShared = sh := by
      intro parsed' hmem
      obtain ⟨hle, b', hb', hbt, hsh⟩ := ih (idx + 1) parsed' i bt sh nn hmem
      refine ⟨by omega, b', ?_, hbt, hsh⟩
      have hi : i - idx = (i - (idx + 1)) + 1 := by omega
      rw [hi]
      simpa using hb'
    have head : i = idx → ∀ sh', b.backendType = bt → b.isShared = sh' →
        sh = sh' →
        idx ≤ i ∧ ∃ b', (b :: rest)[i - idx]? = some b' ∧
          b'.backendType = bt ∧ b'.isShared = sh := by
      intro hi sh' hbt hsh hsh'
      exact ⟨le_of_eq hi.symm, b, by simp [hi], hbt, hsh.trans hsh'.symm⟩
    cases b with
    | shared bt' loader =>
      cases hl : loader p with
      | some raw =>
        cases raw <;> simp [dispatchLoop, hl] at h <;>
          exact head h.1 true (by simp [LoadBackend.backendType, h.2.1])
            rfl h.2.2.1
      | none =>
        simp only [dispatchLoop, hl, List.mem_cons] at h
        rcases h with heq | hmem
        · obtain ⟨hi, hbt, hsh, -⟩ := Event.invoked.inj heq
          exact head hi true (by simp [LoadBackend.backendType, hbt]) rfl hsh
        · exact step _ hmem
    | perModule bt' =>
      rcases parsed with - | ⟨mid, creation⟩
      · cases hc : env.moduleConfig p with
        | none => simp [dispatchLoop, hc] at h
        | some cfg =>
          cases hr : env.moduleBackendRegistry cfg.module_id bt' with
          | none =>
            simp only [dispatchLoop, hc, hr, List.cons_append,
              List.nil_append, List.mem_cons] at h
            rcases h with heq | hmem
            · cases heq
            · exact step _ hmem
          | some implObj =>
            by_cases hmem : (cfg.model_backend.getD LOCAL) ∈
                getSupportedLoadBackends implObj
            · cases hload : implObj.load p bt' with
              | some m =>
                simp [dispatchLoop, hc, hr, hmem, hload] at h
                exact head h.1 false
                  (by simp [LoadBackend.backendType, h.2.1]) rfl h.2.2.1
              | none =>
                simp only [dispatchLoop, hc, hr, if_pos hmem, hload,
                  List.cons_append, List.nil_append, List.mem_cons] at h
                rcases h with heq | heq | hmem'
                · cases heq
                · obtain ⟨hi, hbt, hsh, -⟩ := Event.invoked.inj heq
                  exact head hi false
                    (by simp [LoadBackend.backendType, hbt]) rfl hsh
                · exact step _ hmem'
            · simp only [dispatchLoop, hc, hr, if_neg hmem,
                List.cons_append, List.nil_append, List.mem_cons] at h
              rcases h with heq | hmem'
              · cases heq
              · exact step _ hmem'
      · cases hr : env.moduleBackendRegistry mid bt' with
        | none =>
          simp only [dispatchLoop, hr, List.nil_append] at h
          exact step _ h
        | some implObj =>
          by_cases hmem : creation ∈ getSupportedLoadBackends implObj
          · cases hload : implObj.load p bt' with
            | some m =>
              simp [dispatchLoop, hr, hmem, hload] at h
              exact head h.1 false
                (by simp [LoadBackend.backendType, h.2.1]) rfl h.2.2.1
            | none =>
              simp only [dispatchLoop, hr, if_pos hmem, hload,
                List.nil_append, List.mem_cons] at h
              rcases h with heq | hmem'
              · obtain ⟨hi, hbt, hsh, -⟩ := Event.invoked.inj heq
                exact head hi false
                  (by simp [LoadBackend.backendType, hbt]) rfl hsh
              · exact step _ hmem'
          · simp only [dispatchLoop, hr, if_neg hmem, List.nil_append] at h
            exact step _ h

/-- The loader invocations recorded by the backend loop occur at strictly
increasing positions of the backend list. -/
theorem dispatchLoop_invoked_sorted (env : Env) (p : String) :
    ∀ (bs : List LoadBackend) (idx : Nat) (parsed : Option (String × String)),
      ((dispatchLoop env p idx parsed bs).events.filterMap
        Event.invokedIdx).Pairwise (· < ·) := by
  intro bs
  induction bs with
  | nil => intro idx parsed; simp [dispatchLoop]
  | cons b rest ih =>
    intro idx parsed
    have bound : ∀ (parsed' : Option (String × String)) (j : Nat),
        j ∈ ((dispatchLoop env p (idx + 1) parsed' rest).events.filterMap
          Event.invokedIdx) → idx < j := by
      intro parsed' j hj
      obtain ⟨ev, hev, hevj⟩ := List.mem_filterMap.mp hj
      cases ev with
      | lockAcquire => simp [Event.invokedIdx] at hevj
      | parseConfig q => simp [Event.invokedIdx] at hevj
      | invoked i bt sh nn =>
        obtain ⟨hle, -⟩ := dispatchLoop_invoked_spec env p rest (idx + 1)
          parsed' i bt sh nn hev
        simp only [Event.invokedIdx, Option.some.injEq] at hevj
        omega
    cases b with
    | shared bt' loader =>
      cases hl : loader p with
      | some raw =>
        cases raw <;> simp [dispatchLoop, hl, Event.invokedIdx]
      | none =>
        simp only [dispatchLoop, hl, List.filterMap_cons, Event.invokedIdx]
        exact List.pairwise_cons.mpr ⟨bound parsed, ih (idx + 1) parsed⟩
    | perModule bt' =>
      rcases parsed with - | ⟨mid, creation⟩
      · cases hc : env.moduleConfig p with
        | none => simp [dispatchLoop, hc, Event.invokedIdx]
        | some cfg =>
          cases hr : env.moduleBackendRegistry cfg.module_id bt' with
          | none =>
            simp only [dispatchLoop, hc, hr, List.cons_append,
              List.nil_append, List.filterMap_cons, Event.invokedIdx]
            exact ih (idx + 1) _
          | some implObj =>
            by_cases hmem : (cfg.model_backend.getD LOCAL) ∈
                getSupportedLoadBackends implObj
            · cases hload : implObj.load p bt' with
              | some m => simp [dispatchLoop, hc, hr, hmem, hload,
                  Event.invokedIdx]
              | none =>
                simp only [dispatchLoop, hc, hr, if_pos hmem, hload,
                  List.cons_append, List.nil_append, List.filterMap_cons,
                  Event.invokedIdx]
                exact List.pairwise_cons.mpr ⟨bound _, ih (idx + 1) _⟩
            · simp only [dispatchLoop, hc, hr, if_neg hmem,
                List.cons_append, List.nil_append, List.filterMap_cons,
                Event.invokedIdx]
              exact ih (idx + 1) _
      · cases hr : env.moduleBackendRegistry mid bt' with
        | none =>
          simp only [dispatchLoop, hr, List.nil_append]
          exact ih (idx + 1) _
        | some implObj =>
          by_cases hmem : creation ∈ getSupportedLoadBackends implObj
          · cases hload : implObj.load p bt' with
            | some m =>
              simp [dispatchLoop, hr, hmem, hload, Event.invokedIdx]
            | none =>
              simp only [dispatchLoop, hr, if_pos hmem, hload,
                List.nil_append, List.filterMap_cons, Event.invokedIdx]
              exact List.pairwise_cons.mpr ⟨bound _, ih (idx + 1) _⟩
          · simp only [dispatchLoop, hr, if_neg hmem, List.nil_append]
            exact ih (idx + 1) _

/-- A loader invocation that returned a non-`None` value is always the last
event of the loop's trace: the search stops at the first non-null result. -/
theorem dispatchLoop_nonNull_last (env : Env) (p : String) :
    ∀ (bs : List LoadBackend) (idx : Nat) (parsed : Option (String × String))
      (ev : Event), ev ∈ (dispatchLoop env p idx parsed bs).events →
      ev.isNonNullInvoke = true →
      (dispatchLoop env p idx parsed bs).events.getLast? = some ev := by
  intro bs
  induction bs with
  | nil => intro idx parsed ev h; simp [dispatchLoop] at h
  | cons b rest ih =>
    intro idx parsed ev h hnn
    have ext : ∀ (pre : List Event) (parsed' : Option (String × String)),
        (∀ e ∈ pre, e.isNonNullInvoke = false) →
        ev ∈ pre ++ (dispatchLoop env p (idx + 1) parsed' rest).events →
        (pre ++ (dispatchLoop env p (idx + 1) parsed' rest).events).getLast?
          = some ev := by
      intro pre parsed' hpre hmem
      rcases List.mem_append.mp hmem with h1 | h2
      · rw [hpre ev h1] at hnn; cases hnn
      · rw [List.getLast?_append_of_ne_nil _ (List.ne_nil_of_mem h2)]
        exact ih (idx + 1) parsed' ev h2 hnn
    have fin : ∀ (pre : List Event) (e' : Event),
        (∀ e ∈ pre, e.isNonNullInvoke = false) →
        ev ∈ pre ++ [e'] → (pre ++ [e']).getLast? = some ev := by
      intro pre e' hpre hmem
      rcases List.mem_append.mp hmem with h1 | h2
      · rw [hpre ev h1] at hnn; cases hnn
      · rw [List.getLast?_append_of_ne_nil _ (by simp)]
        simpa using (List.mem_singleton.mp h2).symm
    cases b with
    | shared bt' loader =>
      cases hl : loader p with
      | some raw =>
        cases raw <;>
          simp only [dispatchLoop, hl] at h ⊢ <;>
          exact fin [] _ (by simp) (by simpa using h)
      | none =>
        simp only [dispatchLoop, hl] at h ⊢
        exact ext [.invoked idx bt' true false] parsed
          (by simp [Event.isNonNullInvoke]) h
    | perModule bt' =>
      rcases parsed with - | ⟨mid, creation⟩
      · cases hc : env.moduleConfig p with
        | none =>
          simp only [dispatchLoop, hc] at h
          simp only [List.mem_singleton] at h
          rw [h] at hnn; cases hnn
        | some cfg =>
          cases hr : env.moduleBackendRegistry cfg.module_id bt' with
          | none =>
            simp only [dispatchLoop, hc, hr] at h ⊢
            exact ext [.parseConfig p] _
              (by simp [Event.isNonNullInvoke]) h
          | some implObj =>
            by_cases hmem : (cfg.model_backend.getD LOCAL) ∈
                getSupportedLoadBackends implObj
            · cases hload : implObj.load p bt' with
              | some m =>
                simp only [dispatchLoop, hc, hr, if_pos hmem, hload] at h ⊢
                exact fin [.parseConfig p] _
                  (by simp [Event.isNonNullInvoke]) h
              | none =>
                simp only [dispatchLoop, hc, hr, if_pos hmem, hload] at h ⊢
                exact ext [.parseConfig p, .invoked idx bt' false false] _
                  (by simp [Event.isNonNullInvoke]) h
            · simp only [dispatchLoop, hc, hr, if_neg hmem] at h ⊢
              exact ext [.parseConfig p] _
                (by simp [Event.isNonNullInvoke]) h
      · cases hr : env.moduleBackendRegistry mid bt' with
        | none =>
          simp only [dispatchLoop, hr, List.nil_append] at h ⊢
          exact ext [] _ (by simp) h
        | some implObj =>
          by_cases hmem : creation ∈ getSupportedLoadBackends implObj
          · cases hload : implObj.load p bt' with
            | some m =>
              simp only [dispatchLoop, hr, if_pos hmem, hload,
                List.nil_append] at h ⊢
              exact fin [] _ (by simp) h
            | none =>
              simp only [dispatchLoop, hr, if_pos hmem, hload,
                List.nil_append] at h ⊢
              exact ext [.invoked idx bt' false false] _
                (by simp [Event.isNonNullInvoke]) h
          · simp only [dispatchLoop, hr, if_neg hmem, List.nil_append]
              at h ⊢
            exact ext [] _ (by simp) h

/-- When the loop succeeds, the last trace event is the successful loader
invocation, and the returned model is tagged (via `set_load_backend`) with
that backend's `backend_type`. -/
theorem dispatchLoop_ok_last (env : Env) (p : String) :
    ∀ (bs : List LoadBackend) (idx : Nat) (parsed : Option (String × String))
      (m : Model), (dispatchLoop env p idx parsed bs).result = .ok (some m) →
      ∃ i bt sh, (dispatchLoop env p idx parsed bs).events.getLast? =
        some (.invoked i bt sh true) ∧ m.loadBackend = some bt := by
  intro bs
  induction bs with
  | nil => intro idx parsed m h; simp [dispatchLoop] at h
  | cons b rest ih =>
    intro idx parsed m h
    have ext : ∀ (pre : List Event) (parsed' : Option (String × String)),
        (dispatchLoop env p (idx + 1) parsed' rest).result = .ok (some m) →
        ∃ i bt sh,
          (pre ++ (dispatchLoop env p (idx + 1) parsed' rest).events).getLast?
            = some (.invoked i bt sh true) ∧ m.loadBackend = some bt := by
      intro pre parsed' hres
      obtain ⟨i, bt, sh, hlast, htag⟩ := ih (idx + 1) parsed' m hres
      refine ⟨i, bt, sh, ?_, htag⟩
      rw [List.getLast?_append_of_ne_nil _ ?_, hlast]
      intro hemp
      rw [hemp] at hlast
      cases hlast
    cases b with
    | shared bt' loader =>
      cases hl : loader p with
      | some raw =>
        cases raw with
        | module mid =>
          simp only [dispatchLoop, hl, Except.ok.injEq, Option.some.injEq]
            at h
          exact ⟨idx, bt', true, by simp [dispatchLoop, hl],
            by simp [← h, setLoadBackend]⟩
        | nonModule => simp [dispatchLoop, hl] at h
      | none =>
        simp only [dispatchLoop, hl] at h ⊢
        exact ext [.invoked idx bt' true false] parsed h
    | perModule bt' =>
      rcases parsed with - | ⟨mid, creation⟩
      · cases hc : env.moduleConfig p with
        | none => simp [dispatchLoop, hc] at h
        | some cfg =>
          cases hr : env.moduleBackendRegistry cfg.module_id bt' with
          | none =>
            simp only [dispatchLoop, hc, hr] at h ⊢
            exact ext [.parseConfig p] _ h
          | some implObj =>
            by_cases hmem : (cfg.model_backend.getD LOCAL) ∈
                getSupportedLoadBackends implObj
            · cases hload : implObj.load p bt' with
              | some m' =>
                simp only [dispatchLoop, hc, hr, if_pos hmem, hload,
                  Except.ok.injEq, Option.some.injEq] at h
                exact ⟨idx, bt', false,
                  by simp [dispatchLoop, hc, hr, if_pos hmem, hload],
                  by simp [← h, setLoadBackend]⟩
              | none =>
                simp only [dispatchLoop, hc, hr, if_pos hmem, hload] at h ⊢
                exact ext [.parseConfig p, .invoked idx bt' false false] _ h
            · simp only [dispatchLoop, hc, hr, if_neg hmem] at h ⊢
              exact ext [.parseConfig p] _ h
      · cases hr : env.moduleBackendRegistry mid bt' with
        | none =>
          simp only [dispatchLoop, hr, List.nil_append] at h ⊢
          exact ext [] _ h
        | some implObj =>
          by_cases hmem : creation ∈ getSupportedLoadBackends implObj
          · cases hload : implObj.load p bt' with
            | some m' =>
              simp only [dispatchLoop, hr, if_pos hmem, hload,
                Except.ok.injEq, Option.some.injEq] at h
              exact ⟨idx, bt', false,
                by simp [dispatchLoop, hr, if_pos hmem, hload],
                by simp [← h, setLoadBackend]⟩
            | none =>
              simp only [dispatchLoop, hr, if_pos hmem, hload,
                List.nil_append] at h ⊢
              exact ext [.invoked idx bt' false false] _ h
          · simp only [dispatchLoop, hr, if_neg hmem, List.nil_append]
              at h ⊢
            exact ext [] _ h

/-- Once the `ModuleConfig` has been parsed (the `module_id` local is no
longer `None`), the loop never parses again. -/
theorem dispatchLoop_parse_some (env : Env) (p : String) :
    ∀ (bs : List LoadBackend) (idx : Nat) (mid creation : String),
      ((dispatchLoop env p idx (some (mid, creation)) bs).events.countP
        Event.isParse) = 0 := by
  intro bs
  induction bs with
  | nil => intro idx mid creation; simp [dispatchLoop]
  | cons b rest ih =>
    intro idx mid creation
    cases b with
    | shared bt' loader =>
      cases hl : loader p with
      | some raw => cases raw <;> simp [dispatchLoop, hl, Event.isParse]
      | none =>
        simp only [dispatchLoop, hl, List.countP_cons]
        simpa [Event.isParse] using ih (idx + 1) mid creation
    | perModule bt' =>
      cases hr : env.moduleBackendRegistry mid bt' with
      | none =>
        simp only [dispatchLoop, hr, List.nil_append]
        exact ih (idx + 1) mid creation
      | some implObj =>
        by_cases hmem : creation ∈ getSupportedLoadBackends implObj
        · cases hload : implObj.load p bt' with
          | some m => simp [dispatchLoop, hr, hmem, hload, Event.isParse]
          | none =>
            simp only [dispatchLoop, hr, if_pos hmem, hload,
              List.nil_append, List.countP_cons]
            simpa [Event.isParse] using ih (idx + 1) mid creation
        · simp only [dispatchLoop, hr, if_neg hmem, List.nil_append]
          exact ih (idx + 1) mid creation

/-- `ModuleConfig.load` runs at most once during the whole backend loop,
however many per-module backends are probed. -/
theorem dispatchLoop_parse_le_one (env : Env) (p : String) :
    ∀ (bs : List LoadBackend) (idx : Nat)
      (parsed : Option (String × String)),
      ((dispatchLoop env p idx parsed bs).events.countP Event.isParse)
        ≤ 1 := by
  intro bs
  induction bs with
  | nil => intro idx parsed; simp [dispatchLoop]
  | cons b rest ih =>
    intro idx parsed
    rcases parsed with - | ⟨mid, creation⟩
    · cases b with
      | shared bt' loader =>
        cases hl : loader p with
        | some raw => cases raw <;> simp [dispatchLoop, hl, Event.isParse]
        | none =>
          simp only [dispatchLoop, hl, List.countP_cons]
          simpa [Event.isParse] using ih (idx + 1) none
      | perModule bt' =>
        cases hc : env.moduleConfig p with
        | none => simp [dispatchLoop, hc, Event.isParse]
        | some cfg =>
          cases hr : env.moduleBackendRegistry cfg.module_id bt' with
          | none =>
            simp only [dispatchLoop, hc, hr, List.cons_append,
              List.nil_append, List.countP_cons]
            simpa [Event.isParse] using
              Nat.le_of_eq (dispatchLoop_parse_some env p rest (idx + 1)
                cfg.module_id (cfg.model_backend.getD LOCAL))
          | some implObj =>
            by_cases hmem : (cfg.model_backend.getD LOCAL) ∈
                getSupportedLoadBackends implObj
            · cases hload : implObj.load p bt' with
              | some m =>
                simp [dispatchLoop, hc, hr, hmem, hload, Event.isParse]
              | none =>
                simp only [dispatchLoop, hc, hr, if_pos hmem, hload,
                  List.cons_append, List.nil_append, List.countP_cons]
                simpa [Event.isParse] using
                  Nat.le_of_eq (dispatchLoop_parse_some env p rest (idx + 1)
                    cfg.module_id (cfg.model_backend.getD LOCAL))
            · simp only [dispatchLoop, hc, hr, if_neg hmem,
                List.cons_append, List.nil_append, List.countP_cons]
              simpa [Event.isParse] using
                Nat.le_of_eq (dispatchLoop_parse_some env p rest (idx + 1)
                  cfg.module_id (cfg.model_backend.getD LOCAL))
    · exact Nat.le_of_eq (dispatchLoop_parse_some env p (b :: rest) idx
        mid creation) |>.trans (by omega)

/-- A list of shared backends never triggers a `ModuleConfig.load`. -/
theorem dispatchLoop_all_shared_no_parse (env : Env) (p : String) :
    ∀ (bs : List LoadBackend) (idx : Nat)
      (parsed : Option (String × String)),
      (∀ b ∈ bs, b.isShared = true) →
      ((dispatchLoop env p idx parsed bs).events.countP Event.isParse)
        = 0 := by
  intro bs
  induction bs with
  | nil => intro idx parsed hsh; simp [dispatchLoop]
  | cons b rest ih =>
    intro idx parsed hsh
    cases b with
    | shared bt' loader =>
      cases hl : loader p with
      | some raw => cases raw <;> simp [dispatchLoop, hl, Event.isParse]
      | none =>
        simp only [dispatchLoop, hl, List.countP_cons]
        simpa [Event.isParse] using ih (idx + 1) parsed
          (fun b hb => hsh b (List.mem_cons_of_mem _ hb))
    | perModule bt' =>
      have := hsh _ (List.mem_cons_self _ _)
      simp [LoadBackend.isShared] at this

/-- `_load_from_zipfile` hands at most two directories to `_load_from_dir`:
the extraction root and possibly one nested directory. -/
theorem loadFromZipfile_probed (env : Env) (cache : Cache) (ep : String)
    (ls : Bool) :
    (loadFromZipfile env cache ep ls).probed = [ep] ∨
    ∃ d, (loadFromZipfile env cache ep ls).probed = [ep, d] := by
  rcases h1 : (loadFromDir env cache ep ls).result with e1 | m1
  · by_cases hf : e1.isFileNotFound = true
    · rcases hnd : ((env.listDir ep).filter
          (fun fd => fd.2 && ! startsWithDunder fd.1)).map
          (fun fd => joinPath ep fd.1) with _ | ⟨d, _ | ⟨d2, rest⟩⟩
      · left; simp [loadFromZipfile, h1, hf, hnd]
      · rcases h2 : (loadFromDir env (loadFromDir env cache ep ls).cache d
            ls).result with e2 | m2
        · right
          refine ⟨d, ?_⟩
          by_cases hf2 : e2.isFileNotFound = true <;>
            simp [loadFromZipfile, h1, hf, hnd, h2, hf2]
        · right; exact ⟨d, by simp [loadFromZipfile, h1, hf, hnd, h2]⟩
      · left; simp [loadFromZipfile, h1, hf, hnd]
    · left; simp [loadFromZipfile, h1, hf]
  · left; simp [loadFromZipfile, h1]

/-- A step never changes a thread's `load_singleton` argument. -/
theorem step_singleton_preserved {n : Nat} {s t : CState n} (h : Step s t)
    (i : Fin n) : (t.threads i).singleton = (s.threads i).singleton := by
  cases h with
  | acquire j hj hl =>
    by_cases hij : i = j
    · subst hij; simp [updThreads, hj]
    · simp [updThreads, hij]
  | cacheHit j m hj hc =>
    by_cases hij : i = j
    · subst hij; simp [updThreads, hj]
    · simp [updThreads, hij]
  | cacheMiss j hj hc =>
    by_cases hij : i = j
    · subst hij; simp [updThreads, hj]
    · simp [updThreads, hij]
  | loadStore j hj =>
    by_cases hij : i = j
    · subst hij; simp [updThreads, hj]
    · simp [updThreads, hij]
  | nonSingletonLoad j hj =>
    by_cases hij : i = j
    · subst hij; simp [updThreads, hj]
    · simp [updThreads, hij]

/-- Structural invariant of the lock discipline: a thread inside the locked
block is the lock owner, only singleton threads hold the lock, and a thread
about to run the dispatch (cache miss observed) sees an empty cache. -/
structure CInv {n : Nat} (s : CState n) : Prop where
  busyLock : ∀ i : Fin n, (s.threads i).pc.busy = true → s.lockHeld = some i
  lockSingleton : ∀ i : Fin n, s.lockHeld = some i →
    (s.threads i).singleton = true
  loadingCacheNone : ∀ i : Fin n, (s.threads i).pc = .loading →
    s.cache = none

/-- `CInv` is preserved by every step. -/
theorem cinv_step {n : Nat} {s t : CState n} (h : Step s t) (hs : CInv s) :
    CInv t := by
  obtain ⟨busyLock, lockSingleton, loadingCacheNone⟩ := hs
  cases h with
  | acquire j hj hl =>
    refine ⟨?_, ?_, ?_⟩
    · intro i hb
      simp only [updThreads] at hb ⊢
      by_cases hij : i = j
      · simp [hij]
      · rw [if_neg hij] at hb
        have := busyLock i hb
        rw [hl] at this
        cases this
    · intro i hli
      simp only [Option.some.injEq] at hli
      simp [updThreads, ← hli]
    · intro i hpc
      simp only [updThreads] at hpc
      by_cases hij : i = j
      · rw [if_pos hij] at hpc; cases hpc
      · rw [if_neg hij] at hpc
        exact loadingCacheNone i hpc
  | cacheHit j m hj hc =>
    refine ⟨?_, ?_, ?_⟩
    · intro i hb
      simp only [updThreads] at hb
      by_cases hij : i = j
      · rw [if_pos hij] at hb; cases hb
      · rw [if_neg hij] at hb
        have h1 := busyLock i hb
        have h2 := busyLock j (by rw [hj]; rfl)
        exact absurd (Option.some.inj (h1.symm.trans h2)) hij
    · intro i hli; cases hli
    · intro i hpc
      simp only [updThreads] at hpc
      by_cases hij : i = j
      · rw [if_pos hij] at hpc; cases hpc
      · rw [if_neg hij] at hpc
        exact loadingCacheNone i hpc
  | cacheMiss j hj hc =>
    refine ⟨?_, ?_, ?_⟩
    · intro i hb
      simp only [updThreads] at hb
      by_cases hij : i = j
      · rw [hij]
        exact busyLock j (by rw [hj]; rfl)
      · rw [if_neg hij] at hb
        exact busyLock i hb
    · intro i hli
      have := lockSingleton i hli
      simp only [updThreads]
      by_cases hij : i = j
      · simp [hij]
      · simp [hij, this]
    · intro i hpc
      exact hc
  | loadStore j hj =>
    have hlockj := busyLock j (by rw [hj]; rfl)
    refine ⟨?_, ?_, ?_⟩
    · intro i hb
      simp only [updThreads] at hb
      by_cases hij : i = j
      · rw [if_pos hij] at hb; cases hb
      · rw [if_neg hij] at hb
        have h1 := busyLock i hb
        exact absurd (Option.some.inj (h1.symm.trans hlockj)) hij
    · intro i hli; cases hli
    · intro i hpc
      simp only [updThreads] at hpc
      by_cases hij : i = j
      · rw [if_pos hij] at hpc; cases hpc
      · rw [if_neg hij] at hpc
        have h1 := busyLock i (by rw [hpc]; rfl)
        exact absurd (Option.some.inj (h1.symm.trans hlockj)) hij
  | nonSingletonLoad j hj =>
    refine ⟨?_, ?_, ?_⟩
    · intro i hb
      simp only [updThreads] at hb
      by_cases hij : i = j
      · rw [if_pos hij] at hb; cases hb
      · rw [if_neg hij] at hb
        exact busyLock i hb
    · intro i hli
      have hsing := lockSingleton i hli
      simp only [updThreads]
      by_cases hij : i = j
      · rw [← hij] at hj
        rw [hj] at hsing
        cases hsing
      · simp [hij, hsing]
    · intro i hpc
      simp only [updThreads] at hpc
      by_cases hij : i = j
      · rw [if_pos hij] at hpc; cases hpc
      · rw [if_neg hij] at hpc
        exact loadingCacheNone i hpc

/-- Invariant of all-singleton runs: before the cache is populated no thread
has completed and no dispatch has run; once it is populated, exactly one
dispatch has run and every completed thread returned the cached instance. -/
structure SInv {n : Nat} (s : CState n) : Prop where
  base : CInv s
  allSingleton : ∀ i : Fin n, (s.threads i).singleton = true
  cacheNone : s.cache = none → s.invocations = 0 ∧
    ∀ (i : Fin n) (r : Nat), (s.threads i).pc ≠ .done r
  cacheSome : ∀ m, s.cache = some m → s.invocations = 1 ∧
    ∀ (i : Fin n) (r : Nat), (s.threads i).pc = .done r → r = m

/-- `SInv` is preserved by every step. -/
theorem sinv_step {n : Nat} {s t : CState n} (h : Step s t) (hs : SInv s) :
    SInv t := by
  obtain ⟨base, allSingleton, cacheNone, cacheSome⟩ := hs
  have hbase := cinv_step h ⟨base.busyLock, base.lockSingleton,
    base.loadingCacheNone⟩
  have hsing : ∀ i : Fin n, (t.threads i).singleton = true := fun i =>
    (step_singleton_preserved h i).trans (allSingleton i)
  cases h with
  | acquire j hj hl =>
    refine ⟨hbase, hsing, ?_, ?_⟩
    · intro hc
      obtain ⟨h0, hnd⟩ := cacheNone hc
      refine ⟨h0, fun i r hpc => ?_⟩
      simp only [updThreads] at hpc
      by_cases hij : i = j
      · rw [if_pos hij] at hpc; cases hpc
      · rw [if_neg hij] at hpc
        exact hnd i r hpc
    · intro m hc
      obtain ⟨h1, hall⟩ := cacheSome m hc
      refine ⟨h1, fun i r hpc => ?_⟩
      simp only [updThreads] at hpc
      by_cases hij : i = j
      · rw [if_pos hij] at hpc; cases hpc
      · rw [if_neg hij] at hpc
        exact hall i r hpc
  | cacheHit j m hj hc =>
    refine ⟨hbase, hsing, ?_, ?_⟩
    · intro hc'
      rw [hc] at hc'
      cases hc'
    · intro m' hc'
      rw [hc] at hc'
      obtain rfl := Option.some.inj hc'
      obtain ⟨h1, hall⟩ := cacheSome m hc
      refine ⟨h1, fun i r hpc => ?_⟩
      simp only [updThreads] at hpc
      by_cases hij : i = j
      · rw [if_pos hij] at hpc
        exact (TPc.done.inj hpc).symm
      · rw [if_neg hij] at hpc
        exact hall i r hpc
  | cacheMiss j hj hc =>
    refine ⟨hbase, hsing, ?_, ?_⟩
    · intro hc'
      obtain ⟨h0, hnd⟩ := cacheNone hc'
      refine ⟨h0, fun i r hpc => ?_⟩
      simp only [updThreads] at hpc
      by_cases hij : i = j
      · rw [if_pos hij] at hpc; cases hpc
      · rw [if_neg hij] at hpc
        exact hnd i r hpc
    · intro m hc'
      rw [hc] at hc'
      cases hc'
  | loadStore j hj =>
    have hcpre : s.cache = none := base.loadingCacheNone j (by rw [hj])
    obtain ⟨h0, hnd⟩ := cacheNone hcpre
    refine ⟨hbase, hsing, ?_, ?_⟩
    · intro hc'; cases hc'
    · intro m' hc'
      obtain rfl := Option.some.inj hc'
      refine ⟨by rw [h0], fun i r hpc => ?_⟩
      simp only [updThreads] at hpc
      by_cases hij : i = j
      · rw [if_pos hij] at hpc
        exact (TPc.done.inj hpc).symm
      · rw [if_neg hij] at hpc
        exact absurd hpc (hnd i r)
  | nonSingletonLoad j hj =>
    have := allSingleton j
    rw [hj] at this
    cases this

/-- Every state reachable from an initial state satisfies `CInv`. -/
theorem reach_cinv {n : Nat} (f : Fin n → Bool) {s : CState n}
    (h : Reach (initState n f) s) : CInv s := by
  induction h with
  | refl =>
    refine ⟨?_, ?_, ?_⟩
    · intro i hb; simp [initState, TPc.busy] at hb
    · intro i hl; simp [initState] at hl
    · intro i hpc; simp [initState] at hpc
  | tail hr hstep ih => exact cinv_step hstep ih

/-- Reachability never changes any thread's `load_singleton` argument. -/
theorem reach_singleton {n : Nat} (f : Fin n → Bool) {s : CState n}
    (h : Reach (initState n f) s) (i : Fin n) :
    (s.threads i).singleton = f i := by
  induction h with
  | refl => rfl
  | tail hr hstep ih => rw [step_singleton_preserved hstep i, ih]

/-- Every state reachable from an all-singleton initial state satisfies
`SInv`. -/
theorem reach_sinv {n : Nat} (f : Fin n → Bool) (hf : ∀ i, f i = true)
    {s : CState n} (h : Reach (initState n f) s) : SInv s := by
  induction h with
  | refl =>
    refine ⟨?_, ?_, ?_, ?_⟩
    · refine ⟨?_, ?_, ?_⟩
      · intro i hb; simp [initState, TPc.busy] at hb
      · intro i hl; simp [initState] at hl
      · intro i hpc; simp [initState] at hpc
    · intro i; simp [initState, hf i]
    · intro hc
      exact ⟨rfl, by intro i r hpc; simp [initState] at hpc⟩
    · intro m hc; simp [initState] at hc
  | tail hr hstep ih => exact sinv_step hstep ih

/-!
## Claim theorems
-/

/-- **C9**: for every destination, a second `extract` call with
`force_overwrite = false` performs no extraction (the archive is not
opened), returns the same destination path as the first call, and leaves
the filesystem unchanged; a second call with `force_overwrite = true`
performs the extraction again into the same destination. -/
theorem C9_extract_idempotent (cwd : String) (fs : List String)
    (model_path : String) (force1 : Bool) :
    (extract cwd (extract cwd fs model_path force1).fs model_path false).ret
        = (extract cwd fs model_path force1).ret ∧
    (extract cwd (extract cwd fs model_path force1).fs model_path false).fs
        = (extract cwd fs model_path force1).fs ∧
    (extract cwd (extract cwd fs model_path force1).fs model_path
        false).extracted = false ∧
    (extract cwd (extract cwd fs model_path force1).fs model_path
        true).extracted = true ∧
    (extract cwd (extract cwd fs model_path force1).fs model_path true).ret
        = (extract cwd fs model_path force1).ret := by
  by_cases hcond : force1 = false ∧ absPath cwd model_path ∈ fs
  · refine ⟨?_, ?_, ?_, ?_, ?_⟩ <;> simp [extract, hcond, hcond.2]
  · refine ⟨?_, ?_, ?_, ?_, ?_⟩ <;> simp [extract, hcond]

/-- **C10**: a failing load (nonexistent path, missing manifest, shared-loader
type-contract violation, or backend exhaustion) leaves the singleton cache
unchanged, at both the `_load_from_dir` and the public `load` level; the
cache gains an entry only when a loader returned a non-null instance, and
then exactly the loaded model is stored under the key. -/
theorem C10_failed_load_keeps_cache (env : Env) (cache : Cache)
    (p ep : String) (ls : Bool) :
    (∀ e, (loadFromDir env cache p ls).result = .error e →
      (loadFromDir env cache p ls).cache = cache) ∧
    (∀ e, (load env cache p ep ls).result = .error e →
      (load env cache p ep ls).cache = cache) ∧
    ((loadFromDir env cache p ls).cache ≠ cache →
      ∃ m, (loadFromDir env cache p ls).result = .ok m ∧ ls = true ∧
        cacheGet cache p = none ∧
        (loadFromDir env cache p ls).cache = (p, m) :: cache) := by
  refine ⟨fun e h => loadFromDir_error_cache env cache p ls e h,
    fun e h => load_error_cache env cache p ep ls e h, fun hne => ?_⟩
  rcases loadFromDir_cache_cases env cache p ls with hc | hstored
  · exact absurd hc hne
  · exact hstored

/-- Witness for C10 at a concrete failing input: the cache stays empty both
when the path does not exist and when `load` wraps that failure. -/
theorem C10_failed_load_keeps_cache_witness :
    (loadFromDir envNoPath [] "m" false).cache = [] ∧
    (load envNoPath [] "m" "t" false).cache = [] :=
  ⟨(C10_failed_load_keeps_cache envNoPath [] "m" "t" false).1
      (.pathDoesNotExist "m") (by rfl),
   (C10_failed_load_keeps_cache envNoPath [] "m" "t" false).2.1
      (.configYmlNotFound "m") (by rfl)⟩

/-- **C2**: backends are attempted exactly in the configured list's order
(the invocation trace's positions are strictly increasing and each position
points at the matching backend of the list); the first loader to return a
non-null value terminates the search (a non-null invocation is always the
last trace event, so no later backend is attempted); and a successful load
returns the instance tagged via `set_load_backend` with the backend of that
final successful invocation. -/
theorem C2_backend_order_first_success (env : Env) (cache : Cache)
    (p : String) (ls : Bool) :
    (((loadFromDir env cache p ls).events.filterMap
        Event.invokedIdx).Pairwise (· < ·)) ∧
    (∀ i bt sh nn, Event.invoked i bt sh nn ∈
        (loadFromDir env cache p ls).events →
      ∃ b, env.configuredLoadBackends[i]? = some b ∧
        b.backendType = bt ∧ b.isShared = sh) ∧
    (∀ ev ∈ (loadFromDir env cache p ls).events,
      ev.isNonNullInvoke = true →
      (loadFromDir env cache p ls).events.getLast? = some ev) ∧
    (∀ m, (loadFromDir env cache p ls).result = .ok m →
      (cacheGet cache p = none ∨ ls = false) →
      ∃ i bt sh, (loadFromDir env cache p ls).events.getLast? =
        some (.invoked i bt sh true) ∧ m.loadBackend = some bt) := by
  by_cases hpe : env.pathExists p = false
  · have hev : (loadFromDir env cache p ls).events = [] := by
      simp [loadFromDir, hpe]
    have hres : (loadFromDir env cache p ls).result =
        .error (.pathDoesNotExist p) := by
      simp [loadFromDir, hpe]
    refine ⟨by simp [hev], by simp [hev], by simp [hev], ?_⟩
    intro m hm
    rw [hres] at hm
    cases hm
  · by_cases hhit : ∃ m₀, ls = true ∧ cacheGet cache p = some m₀
    · obtain ⟨m₀, hls, hget⟩ := hhit
      have hev : (loadFromDir env cache p ls).events = [.lockAcquire] := by
        simp [loadFromDir, hpe, hls, hget]
      refine ⟨by simp [hev, Event.invokedIdx], by simp [hev], ?_, ?_⟩
      · intro ev hmem hnn
        rw [hev] at hmem
        simp only [List.mem_singleton] at hmem
        simp [hmem, Event.isNonNullInvoke] at hnn
      · intro m hm hside
        rcases hside with hside | hside
        · rw [hside] at hget; cases hget
        · rw [hside] at hls; cases hls
    · have hmiss : (if ls = true then cacheGet cache p else none) = none := by
        by_cases hls : ls = true
        · cases hget : cacheGet cache p with
          | none => simp [hls, hget]
          | some m₀ => exact absurd ⟨m₀, hls, hget⟩ hhit
        · simp [hls]
      have hev : (loadFromDir env cache p ls).events =
          (if ls = true then [Event.lockAcquire] else []) ++
          (dispatchLoop env p 0 none env.configuredLoadBackends).events := by
        rcases hd : (dispatchLoop env p 0 none
            env.configuredLoadBackends).result with e | (- | m) <;>
          simp [loadFromDir, hpe, hmiss, hd]
      have hok : ∀ m, (loadFromDir env cache p ls).result = .ok m →
          (dispatchLoop env p 0 none env.configuredLoadBackends).result =
            .ok (some m) := by
        intro m hm
        rcases hd : (dispatchLoop env p 0 none
            env.configuredLoadBackends).result with e | (- | m') <;>
          simp [loadFromDir, hpe, hmiss, hd] at hm
        simp [hd, hm]
      refine ⟨?_, ?_, ?_, ?_⟩
      · rw [hev]
        have : ((if ls = true then [Event.lockAcquire] else []) ++
            (dispatchLoop env p 0 none
              env.configuredLoadBackends).events).filterMap Event.invokedIdx
            = ((dispatchLoop env p 0 none
              env.configuredLoadBackends).events).filterMap
              Event.invokedIdx := by
          cases ls <;> simp [Event.invokedIdx]
        rw [this]
        exact dispatchLoop_invoked_sorted env p _ 0 none
      · intro i bt sh nn hmem
        rw [hev] at hmem
        rcases List.mem_append.mp hmem with h1 | h1
        · cases ls <;> simp at h1
        · obtain ⟨-, b, hb, hbt, hsh⟩ := dispatchLoop_invoked_spec env p
            env.configuredLoadBackends 0 none i bt sh nn h1
          exact ⟨b, by simpa using hb, hbt, hsh⟩
      · intro ev hmem hnn
        rw [hev] at hmem ⊢
        rcases List.mem_append.mp hmem with h1 | h1
        · cases ls with
          | false => simp at h1
          | true =>
            simp at h1
            simp [h1, Event.isNonNullInvoke] at hnn
        · rw [List.getLast?_append_of_ne_nil _ (List.ne_nil_of_mem h1)]
          exact dispatchLoop_nonNull_last env p _ 0 none ev h1 hnn
      · intro m hm _hside
        obtain ⟨i, bt, sh, hlast, htag⟩ := dispatchLoop_ok_last env p
          env.configuredLoadBackends 0 none m (hok m hm)
        refine ⟨i, bt, sh, ?_, htag⟩
        rw [hev, List.getLast?_append_of_ne_nil _ ?_, hlast]
        intro hemp
        rw [hemp] at hlast
        cases hlast

/-- Witness for C2: with two shared backends where the first declines and the
second succeeds, the returned instance is tagged with the final, successful
invocation's backend. -/
theorem C2_backend_order_first_success_witness :
    ∃ i bt sh, (loadFromDir envTwoShared [] "p" false).events.getLast? =
      some (.invoked i bt sh true) ∧
      (Model.mk 5 (some "B")).loadBackend = some bt :=
  (C2_backend_order_first_success envTwoShared [] "p" false).2.2.2
    ⟨5, some "B"⟩ (by rfl) (Or.inr rfl)

/-- **C6**: for a directory load, the module manifest is parsed at most once
no matter how many per-module backends are probed; shared-loader attempts
never trigger a parse (an all-shared backend list yields a parse count of
zero); and a shared backend at the head of the list can succeed on a
directory with no manifest at all. -/
theorem C6_manifest_parsed_at_most_once (env : Env) (cache : Cache)
    (p : String) (ls : Bool) :
    ((loadFromDir env cache p ls).events.countP Event.isParse ≤ 1) ∧
    ((∀ b ∈ env.configuredLoadBackends, b.isShared = true) →
      (loadFromDir env cache p ls).events.countP Event.isParse = 0) ∧
    (∀ bt loader k rest, env.moduleConfig p = none →
      env.pathExists p = true →
      env.configuredLoadBackends = .shared bt loader :: rest →
      loader p = some (.module k) →
      (loadFromDir env cache p ls).result = .ok ⟨k, some bt⟩ ∨
        (ls = true ∧ ∃ m₀, cacheGet cache p = some m₀ ∧
          (loadFromDir env cache p ls).result = .ok m₀)) := by
  have hcount : ∀ pre : List Event, (∀ e ∈ pre, e.isParse = false) →
      ∀ l : List Event, (pre ++ l).countP Event.isParse = l.countP
        Event.isParse := by
    intro pre hpre l
    rw [List.countP_append]
    have : pre.countP Event.isParse = 0 :=
      List.countP_eq_zero.mpr (by intro e he; simp [hpre e he])
    omega
  by_cases hpe : env.pathExists p = false
  · have hev : (loadFromDir env cache p ls).events = [] := by
      simp [loadFromDir, hpe]
    refine ⟨by simp [hev], by simp [hev], ?_⟩
    intro bt loader k rest _h1 hpe' _h3 _h4
    rw [hpe'] at hpe
    cases hpe
  · by_cases hhit : ∃ m₀, ls = true ∧ cacheGet cache p = some m₀
    · obtain ⟨m₀, hls, hget⟩ := hhit
      have hev : (loadFromDir env cache p ls).events = [.lockAcquire] := by
        simp [loadFromDir, hpe, hls, hget]
      have hres : (loadFromDir env cache p ls).result = .ok m₀ := by
        simp [loadFromDir, hpe, hls, hget]
      refine ⟨by simp [hev, Event.isParse], by simp [hev, Event.isParse],
        ?_⟩
      intro bt loader k rest _h1 _h2 _h3 _h4
      exact Or.inr ⟨hls, m₀, hget, hres⟩
    · have hmiss : (if ls = true then cacheGet cache p else none) = none := by
        by_cases hls : ls = true
        · cases hget : cacheGet cache p with
          | none => simp [hls, hget]
          | some m₀ => exact absurd ⟨m₀, hls, hget⟩ hhit
        · simp [hls]
      have hev : (loadFromDir env cache p ls).events =
          (if ls = true then [Event.lockAcquire] else []) ++
          (dispatchLoop env p 0 none env.configuredLoadBackends).events := by
        rcases hd : (dispatchLoop env p 0 none
            env.configuredLoadBackends).result with e | (- | m) <;>
          simp [loadFromDir, hpe, hmiss, hd]
      have hlock : ∀ e ∈ (if ls = true then [Event.lockAcquire] else []),
          e.isParse = false := by
        cases ls <;> simp [Event.isParse]
      refine ⟨?_, ?_, ?_⟩
      · rw [hev, hcount _ hlock]
        exact dispatchLoop_parse_le_one env p _ 0 none
      · intro hsh
        rw [hev, hcount _ hlock]
        exact dispatchLoop_all_shared_no_parse env p _ 0 none hsh
      · intro bt loader k rest _h1 _h2 hbs hl
        left
        have hd : (dispatchLoop env p 0 none
            env.configuredLoadBackends).result =
            .ok (some ⟨k, some bt⟩) := by
          rw [hbs]
          simp [dispatchLoop, hl, setLoadBackend]
        simp [loadFromDir, hpe, hmiss, hd]

/-- Witness for C6: the all-shared environment parses no manifest and the
head shared backend succeeds although `ModuleConfig.load` would fail. -/
theorem C6_manifest_parsed_at_most_once_witness :
    (loadFromDir envShared [] "p" false).events.countP Event.isParse = 0 ∧
    ((loadFromDir envShared [] "p" false).result = .ok ⟨7, some "S"⟩ ∨
      (false = true ∧ ∃ m₀, cacheGet [] "p" = some m₀ ∧
        (loadFromDir envShared [] "p" false).result = .ok m₀)) :=
  ⟨(C6_manifest_parsed_at_most_once envShared [] "p" false).2.1
      (by intro b hb; simp [envShared] at hb; rw [hb]; rfl),
   (C6_manifest_parsed_at_most_once envShared [] "p" false).2.2 "S"
      (fun _ => some (.module 7)) 7 [] (by rfl) (by rfl) (by rfl) (by rfl)⟩

/-- **C3**: in every reachable state of the concurrent model, at most one
thread is inside the locked block (singleton loads serialize on the single
process-wide lock); the lock is only ever held by a singleton thread
(non-singleton loads never acquire it); and when all requests are singleton
loads of the same key, any completed caller implies exactly one dispatch
(loader) invocation has occurred and every completed caller holds the
identity-equal cached instance. -/
theorem C3_singleton_concurrency {n : Nat} (f : Fin n → Bool) (s : CState n)
    (hr : Reach (initState n f) s) :
    (∀ i j : Fin n, (s.threads i).pc.busy = true →
      (s.threads j).pc.busy = true → i = j) ∧
    (∀ i : Fin n, s.lockHeld = some i → f i = true) ∧
    ((∀ i, f i = true) →
      (∀ (i : Fin n) (r : Nat), (s.threads i).pc = .done r →
        s.invocations = 1 ∧ s.cache = some r) ∧
      (∀ (i j : Fin n) (ri rj : Nat), (s.threads i).pc = .done ri →
        (s.threads j).pc = .done rj → ri = rj)) := by
  have hcinv := reach_cinv f hr
  refine ⟨?_, ?_, ?_⟩
  · intro i j hbi hbj
    have h1 := hcinv.busyLock i hbi
    have h2 := hcinv.busyLock j hbj
    exact Option.some.inj (h1.symm.trans h2)
  · intro i hl
    have := hcinv.lockSingleton i hl
    rw [reach_singleton f hr i] at this
    exact this
  · intro hf
    have hsinv := reach_sinv f hf hr
    constructor
    · intro i r hpc
      cases hc : s.cache with
      | none => exact absurd hpc ((hsinv.cacheNone hc).2 i r)
      | some m =>
        obtain ⟨hinv, hall⟩ := hsinv.cacheSome m hc
        have hrm := hall i r hpc
        exact ⟨hinv, by rw [hrm]⟩
    · intro i j ri rj hi hj
      cases hc : s.cache with
      | none => exact absurd hi ((hsinv.cacheNone hc).2 i ri)
      | some m =>
        obtain ⟨-, hall⟩ := hsinv.cacheSome m hc
        rw [hall i ri hi, hall j rj hj]

/-- Witness for C3: a concrete interleaving of two singleton threads — the
first acquires, misses, loads and stores; the second then acquires and hits
the cache — ends with one dispatch invocation and both threads holding the
same instance. -/
theorem C3_singleton_concurrency_witness :
    ∃ s : CState 2, Reach (initState 2 (fun _ => true)) s ∧
      s.invocations = 1 ∧ s.cache = some 0 ∧
      (s.threads 0).pc = .done 0 ∧ (s.threads 1).pc = .done 0 := by
  have hreach := Reach.tail (Reach.tail (Reach.tail (Reach.tail (Reach.tail
    (Reach.refl (initState 2 (fun _ => true)))
    (Step.acquire (initState 2 (fun _ => true)) 0 rfl rfl))
    (Step.cacheMiss _ 0 rfl rfl))
    (Step.loadStore _ 0 rfl))
    (Step.acquire _ 1 rfl rfl))
    (Step.cacheHit _ 1 0 rfl rfl)
  have hmain := C3_singleton_concurrency (fun _ => true) _ hreach
  obtain ⟨hinv, hcache⟩ := (hmain.2.2 (fun i => rfl)).1 0 0 rfl
  exact ⟨_, hreach, hinv, hcache, rfl, rfl⟩

/-- **C1, counterexample**: the claim says an absent/empty
`SUPPORTED_LOAD_BACKENDS` declaration means "only the implementation's own
backend kind is allowed", so a `LOCAL`-created artifact would still be
attempted by a `LOCAL` per-module implementation declaring no list.  In the
code, `_get_supported_load_backends` falls back to `[]` and the membership
test `model_creation_backend in []` is always false: the implementation is
never attempted — here the trace contains only the manifest parse and the
load fails with dispatch exhaustion. -/
theorem C1_counterexample :
    envLocalNoList.moduleBackendRegistry "mid" LOCAL =
      some implLocalNoList ∧
    implLocalNoList.supportedLoadBackends = none ∧
    envLocalNoList.moduleConfig "p" = some ⟨"mid", none⟩ ∧
    (ModuleConfig.mk "mid" none).model_backend.getD LOCAL = LOCAL ∧
    (loadFromDir envLocalNoList [] "p" false).events =
      [.parseConfig "p"] ∧
    (loadFromDir envLocalNoList [] "p" false).result =
      .error (.unableToLoad "p" (some "mid")) :=
  ⟨by rfl, by rfl, by rfl, by rfl, by rfl, by rfl⟩

/-- **C1, amended**: when the backend loop reaches a per-module backend whose
kind has a registered implementation for the parsed module, that
implementation's loader is invoked if and only if the artifact's recorded
creation backend is a member of the implementation's declared
supported-load-backends list, where an empty or *absent* declaration
denotes the empty set — such an implementation is never attempted, not even
for an artifact created by its own backend kind. -/
theorem C1_per_module_gating (env : Env) (p : String) (idx : Nat)
    (mid creation bt : String) (rest : List LoadBackend)
    (implObj : BackendImplObj)
    (hr : env.moduleBackendRegistry mid bt = some implObj) :
    ((∃ nn, Event.invoked idx bt false nn ∈
        (dispatchLoop env p idx (some (mid, creation))
          (.perModule bt :: rest)).events) ↔
      creation ∈ getSupportedLoadBackends implObj) ∧
    (implObj.supportedLoadBackends = none →
      getSupportedLoadBackends implObj = [] ∧
      ¬ ∃ nn, Event.invoked idx bt false nn ∈
        (dispatchLoop env p idx (some (mid, creation))
          (.perModule bt :: rest)).events) := by
  have hiff : (∃ nn, Event.invoked idx bt false nn ∈
      (dispatchLoop env p idx (some (mid, creation))
        (.perModule bt :: rest)).events) ↔
      creation ∈ getSupportedLoadBackends implObj := by
    constructor
    · intro ⟨nn, hmem⟩
      by_cases hin : creation ∈ getSupportedLoadBackends implObj
      · exact hin
      · exfalso
        simp only [dispatchLoop, hr, if_neg hin, List.nil_append] at hmem
        obtain ⟨hle, -⟩ := dispatchLoop_invoked_spec env p rest (idx + 1)
          (some (mid, creation)) idx bt false nn hmem
        omega
    · intro hin
      cases hload : implObj.load p bt with
      | some m =>
        exact ⟨true, by simp [dispatchLoop, hr, if_pos hin, hload]⟩
      | none =>
        exact ⟨false, by simp [dispatchLoop, hr, if_pos hin, hload]⟩
  refine ⟨hiff, fun hnone => ⟨by simp [getSupportedLoadBackends, hnone], ?_⟩⟩
  intro hex
  have := hiff.mp hex
  rw [getSupportedLoadBackends, hnone] at this
  simp at this

/-- Witness for the amended C1: the undeclared implementation is never
invoked even though the artifact was created by its own `LOCAL` kind, while
the implementation declaring `[LOCAL]` is invoked. -/
theorem C1_per_module_gating_witness :
    (¬ ∃ nn, Event.invoked 0 LOCAL false nn ∈
      (dispatchLoop envLocalNoList "p" 0 (some ("mid", LOCAL))
        [.perModule LOCAL]).events) ∧
    (∃ nn, Event.invoked 0 LOCAL false nn ∈
      (dispatchLoop envLocalWithList "p" 0 (some ("mid", LOCAL))
        [.perModule LOCAL]).events) :=
  ⟨((C1_per_module_gating envLocalNoList "p" 0 "mid" LOCAL LOCAL []
      implLocalNoList (by rfl)).2 (by rfl)).2,
   (C1_per_module_gating envLocalWithList "p" 0 "mid" LOCAL LOCAL []
      implLocalWithList (by rfl)).1.mpr (by decide)⟩

/-- **C5**: when manifest resolution fails at the extraction root with a
`FileNotFoundError`, the loader inspects the root's entries, keeps only
directories whose names do not start with `__`, and: if exactly one remains
it retries exactly one level down (a `FileNotFoundError` there is fatal as
"within top two levels", any other failure propagates, a success is
returned); if zero or more than one remain it fails with the "nested dirs"
error, which is distinct from the not-found errors; at most two directories
are ever probed, so deeper nesting is never unwrapped. -/
theorem C5_zip_nested_fallback (env : Env) (cache : Cache) (ep : String)
    (ls : Bool) (e : LoadError)
    (h1 : (loadFromDir env cache ep ls).result = .error e)
    (hf : e.isFileNotFound = true) :
    ((((env.listDir ep).filter
        (fun fd => fd.2 && ! startsWithDunder fd.1)).map
        (fun fd => joinPath ep fd.1)).length ≠ 1 →
      (loadFromZipfile env cache ep ls).result = .error .nestedDirs ∧
      (loadFromZipfile env cache ep ls).probed = [ep]) ∧
    (∀ d, ((env.listDir ep).filter
        (fun fd => fd.2 && ! startsWithDunder fd.1)).map
        (fun fd => joinPath ep fd.1) = [d] →
      (loadFromZipfile env cache ep ls).probed = [ep, d] ∧
      (∀ e2, (loadFromDir env cache d ls).result = .error e2 →
        (e2.isFileNotFound = true →
          (loadFromZipfile env cache ep ls).result =
            .error .archiveConfigNotFound) ∧
        (e2.isFileNotFound = false →
          (loadFromZipfile env cache ep ls).result = .error e2)) ∧
      (∀ m, (loadFromDir env cache d ls).result = .ok m →
        (loadFromZipfile env cache ep ls).result = .ok m)) ∧
    (LoadError.nestedDirs ≠ e ∧ ∀ q,
      LoadError.nestedDirs ≠ .moduleConfigNotFound q ∧
      LoadError.nestedDirs ≠ .pathDoesNotExist q ∧
      LoadError.nestedDirs ≠ .configYmlNotFound q) ∧
    (loadFromZipfile env cache ep ls).probed.length ≤ 2 := by
  have hc1 := loadFromDir_error_cache env cache ep ls e h1
  refine ⟨?_, ?_, ⟨?_, by intro q; refine ⟨by simp, by simp, by simp⟩⟩, ?_⟩
  · intro hlen
    rcases hnd : ((env.listDir ep).filter
        (fun fd => fd.2 && ! startsWithDunder fd.1)).map
        (fun fd => joinPath ep fd.1) with _ | ⟨d, _ | ⟨d2, rest⟩⟩
    · constructor <;> simp [loadFromZipfile, h1, hf, hnd]
    · rw [hnd] at hlen; simp at hlen
    · constructor <;> simp [loadFromZipfile, h1, hf, hnd]
  · intro d hnd
    refine ⟨?_, ?_, ?_⟩
    · rcases h2 : (loadFromDir env cache d ls).result with e2 | m2
      · by_cases hf2 : e2.isFileNotFound = true <;>
          simp [loadFromZipfile, h1, hf, hnd, hc1, h2, hf2]
      · simp [loadFromZipfile, h1, hf, hnd, hc1, h2]
    · intro e2 h2
      constructor <;> intro hf2 <;>
        simp [loadFromZipfile, h1, hf, hnd, hc1, h2, hf2]
    · intro m hm
      simp [loadFromZipfile, h1, hf, hnd, hc1, hm]
  · intro heq
    rw [← heq] at hf
    simp [LoadError.isFileNotFound] at hf
  · rcases loadFromZipfile_probed env cache ep ls with hp | ⟨d, hp⟩ <;>
      simp [hp]

/-- Witness for C5 at concrete inputs: the `__MACOSX`-filtered single nested
directory is retried and the second failure is the fatal "top two levels"
error; two real directories produce the "nested dirs" error. -/
theorem C5_zip_nested_fallback_witness :
    (loadFromZipfile envZipNested [] "ex" false).result =
      .error .archiveConfigNotFound ∧
    (loadFromZipfile envZipNested [] "ex" false).probed = ["ex", "ex/mdl"] ∧
    (loadFromZipfile envZipTwoDirs [] "ex" false).result =
      .error .nestedDirs := by
  have t1 := C5_zip_nested_fallback envZipNested [] "ex" false
    (.moduleConfigNotFound "ex") (by rfl) (by rfl)
  have t2 := C5_zip_nested_fallback envZipTwoDirs [] "ex" false
    (.moduleConfigNotFound "ex") (by rfl) (by rfl)
  obtain ⟨hp, hcase, -⟩ := t1.2.1 "ex/mdl" (by rfl)
  exact ⟨(hcase (.moduleConfigNotFound "ex/mdl") (by rfl)).1 (by rfl), hp,
    (t2.1 (by decide)).1⟩

/-- **C8, counterexample**: the claim says a load of a nonexistent non-archive
path fails with a *distinct* "path does not exist" error rather than a
manifest-not-found failure.  In fact `load` catches the `FileNotFoundError`
raised by `_load_from_dir` and re-raises the generic
"does not contain a `config.yml`" error `<COR80419785E>` — the very same
error an existing directory without a manifest produces. -/
theorem C8_counterexample :
    (load envNoPath [] "missing" "t" false).result =
      .error (.configYmlNotFound "missing") ∧
    (load envNoManifest [] "there" "t" false).result =
      .error (.configYmlNotFound "there") :=
  ⟨by rfl, by rfl⟩

/-- **C8, amended**: a load of a non-archive path that does not exist fails
immediately and fatally before any backend is tried (the trace is empty:
no lock, no parse, no loader invocation) and with the cache untouched;
`_load_from_dir` raises a distinct ENOENT "path does not exist" error, but
public `load` converts it — like any `FileNotFoundError` — into the generic
"does not contain a `config.yml`" error. -/
theorem C8_nonexistent_path (env : Env) (cache : Cache) (target ep : String)
    (ls : Bool)
    (hpe : env.pathExists (resolveModulePath env target) = false)
    (hz : env.isZipfile (resolveModulePath env target) = false) :
    loadFromDir env cache (resolveModulePath env target) ls =
      ⟨.error (.pathDoesNotExist (resolveModulePath env target)), cache, []⟩ ∧
    load env cache target ep ls =
      ⟨.error (.configYmlNotFound (resolveModulePath env target)), cache,
        []⟩ ∧
    (∀ q mid, LoadError.pathDoesNotExist (resolveModulePath env target) ≠
        .moduleConfigNotFound q ∧
      LoadError.pathDoesNotExist (resolveModulePath env target) ≠
        .unableToLoad q mid ∧
      LoadError.pathDoesNotExist (resolveModulePath env target) ≠
        .configYmlNotFound q) := by
  have h1 : loadFromDir env cache (resolveModulePath env target) ls =
      ⟨.error (.pathDoesNotExist (resolveModulePath env target)), cache,
        []⟩ := by
    simp [loadFromDir, hpe]
  refine ⟨h1, ?_, by simp⟩
  simp [load, hz, h1, LoadError.isFileNotFound]

/-- Witness for the amended C8 at a concrete input. -/
theorem C8_nonexistent_path_witness :
    envNoPath.pathExists (resolveModulePath envNoPath "m") = false ∧
    load envNoPath [] "m" "t" false =
      ⟨.error (.configYmlNotFound (resolveModulePath envNoPath "m")), [],
        []⟩ :=
  ⟨by rfl,
   (C8_nonexistent_path envNoPath [] "m" "t" false (by rfl) (by rfl)).2.1⟩

/-- **C4, counterexample**: the claim says every singleton load whose key is
in the singleton cache returns the cached instance.  But `_load_from_dir`
checks `os.path.exists(module_path)` *before* the cache lookup, so a cached
key whose directory has since disappeared raises `FileNotFoundError` instead
of returning the cached instance. -/
theorem C4_counterexample :
    cacheGet [("p", modelA)] "p" = some modelA ∧
    (loadFromDir envNoPath [("p", modelA)] "p" true).result =
      .error (.pathDoesNotExist "p") :=
  ⟨by rfl, by rfl⟩

/-- **C4, amended**: for a singleton load whose target path exists, a key
already present in the singleton cache is returned immediately — the trace
is just the lock acquisition, so no backend loader runs and no manifest is
parsed, and the cache is unchanged; when the key is absent, a successfully
loaded instance is stored under the key and returned. -/
theorem C4_singleton_cache (env : Env) (cache : Cache) (p : String)
    (hpe : env.pathExists p = true) :
    (∀ m, cacheGet cache p = some m →
      loadFromDir env cache p true = ⟨.ok m, cache, [.lockAcquire]⟩) ∧
    (cacheGet cache p = none → ∀ m,
      (loadFromDir env cache p true).result = .ok m →
      (loadFromDir env cache p true).cache = (p, m) :: cache) := by
  constructor
  · intro m hm
    simp [loadFromDir, hpe, hm]
  · intro hget m hres
    rcases hd : (dispatchLoop env p 0 none env.configuredLoadBackends).result
        with e | (_ | m')
    · simp [loadFromDir, hpe, hget, hd] at hres
    · simp [loadFromDir, hpe, hget, hd] at hres
    · have hm : m' = m := by
        simpa [loadFromDir, hpe, hget, hd] using hres
      simp [loadFromDir, hpe, hget, hd, hm]

/-- Witness for the amended C4: a concrete cache hit returns the cached
instance with only the lock acquisition in the trace. -/
theorem C4_singleton_cache_witness :
    cacheGet [("p", modelA)] "p" = some modelA ∧
    loadFromDir envNoManifest [("p", modelA)] "p" true =
      ⟨.ok modelA, [("p", modelA)], [.lockAcquire]⟩ :=
  ⟨by rfl,
   (C4_singleton_cache envNoManifest [("p", modelA)] "p" (by rfl)).1 modelA
     (by rfl)⟩

/-- **C7, counterexample**: the claim says the cache key is the
caller-supplied target *exactly as given*, with *no normalization*, so two
spellings of one path are always different keys.  But `load` applies
`os.path.normpath` before `_load_from_dir`: a singleton load of `"a/./b"`
stores under key `"a/b"`, and a singleton load of `"a/./b"` *hits* a cache
entry stored under `"a/b"`. -/
theorem C7_counterexample :
    (load envShared [] "a/./b" "t" true).cache =
      [("a/b", ⟨7, some "S"⟩)] ∧
    ("a/./b" : String) ≠ "a/b" ∧
    (load envShared [("a/b", modelA)] "a/./b" "t" true).result =
      .ok modelA :=
  ⟨by rfl, by decide, by rfl⟩

/-- **C7, amended**: for a singleton load of a non-archive target, the cache
key is `os.path.normpath` applied to the caller-supplied target (after the
optional `load_path` join), not the raw string — equivalent spellings share
one key — and it is not absolutized or content-addressed, so relative and
absolute spellings of the same location remain different keys.  For a
zip-archive target, the key is not derived from the caller-supplied target
at all: any entry the load stores is keyed by one of the (at most two)
directories handed to `_load_from_dir`, i.e. the fresh temporary extraction
root or its single nested directory. -/
theorem C7_cache_key_normalized (env : Env) (cache : Cache)
    (target ep : String) :
    (env.isZipfile (resolveModulePath env target) = false →
      (∀ m, env.pathExists (resolveModulePath env target) = true →
        cacheGet cache (resolveModulePath env target) = some m →
        (load env cache target ep true).result = .ok m) ∧
      (∀ m, cacheGet cache (resolveModulePath env target) = none →
        (load env cache target ep true).result = .ok m →
        (load env cache target ep true).cache =
          (resolveModulePath env target, m) :: cache)) ∧
    (env.isZipfile (resolveModulePath env target) = true →
      ∀ m, (load env cache target ep true).result = .ok m →
        (load env cache target ep true).cache = cache ∨
        ∃ k, k ∈ (loadFromZipfile env cache ep true).probed ∧
          (load env cache target ep true).cache = (k, m) :: cache) ∧
    ((loadFromZipfile env cache ep true).probed = [ep] ∨
      ∃ d, (loadFromZipfile env cache ep true).probed = [ep, d]) ∧
    resolveModulePath envShared "a/b" = "a/b" ∧
    resolveModulePath envShared "/c/d" = "/c/d" ∧
    ("a/b" : String) ≠ "/c/d" := by
  refine ⟨fun hz => ⟨?_, ?_⟩, ?_, loadFromZipfile_probed env cache ep true,
    by rfl, by rfl, by decide⟩
  · intro m hpe hm
    simp [load, hz, loadFromDir, hpe, hm]
  · intro m hget hres
    by_cases hpe : env.pathExists (resolveModulePath env target) = false
    · simp [load, hz, loadFromDir, hpe, LoadError.isFileNotFound] at hres
    · rcases hd : (dispatchLoop env (resolveModulePath env target) 0 none
          env.configuredLoadBackends).result with e | (_ | m')
      · by_cases hf : e.isFileNotFound = true <;>
          simp [load, hz, loadFromDir, hpe, hget, hd, hf] at hres
      · simp [load, hz, loadFromDir, hpe, hget, hd,
          LoadError.isFileNotFound] at hres
      · have hm : m' = m := by
          simpa [load, hz, loadFromDir, hpe, hget, hd] using hres
        simp [load, hz, loadFromDir, hpe, hget, hd, hm]
  · intro hz m hm
    have hcache : (load env cache target ep true).cache =
        (loadFromZipfile env cache ep true).cache := by simp [load, hz]
    have hres : (load env cache target ep true).result =
        (loadFromZipfile env cache ep true).result := by simp [load, hz]
    rcases loadFromZipfile_cache_cases env cache ep true
        with hc | ⟨m', k, hr', -, hk, hstore⟩
    · left; rw [hcache, hc]
    · right
      rw [hres, hr'] at hm
      obtain rfl := Except.ok.inj hm
      exact ⟨k, hk, by rw [hcache, hstore]⟩

/-- Witness for the amended C7: a load of `"a/./b"` hits the entry cached
under the normalized key `"a/b"`, and a singleton zip load stores its entry
under a probed extraction directory, not the caller-supplied archive
path. -/
theorem C7_cache_key_normalized_witness :
    (load envShared [("a/b", modelA)] "a/./b" "t" true).result =
      .ok modelA ∧
    ((load envZipShared [] "mdl.zip" "tmp" true).cache = [] ∨
      ∃ k, k ∈ (loadFromZipfile envZipShared [] "tmp" true).probed ∧
        (load envZipShared [] "mdl.zip" "tmp" true).cache =
          [(k, ⟨9, some "S"⟩)]) :=
  ⟨((C7_cache_key_normalized envShared [("a/b", modelA)] "a/./b" "t").1
      (by rfl)).1 modelA (by rfl) (by rfl),
   (C7_cache_key_normalized envZipShared [] "mdl.zip" "tmp").2.1 (by rfl)
      ⟨9, some "S"⟩ (by rfl)⟩

end CaikitModelManager
